import Mathlib

/-!
Verification development for the ManuID ingestion pipeline and ranking scorer.

The definitions below are a shallow embedding of the Python sources under
`app/services` (scraper.py, ingestion.py, normalizer.py, scoring.py) and of
the allowlist logic in `app/config.py`.  Python strings are modelled by Lean
strings restricted to their ASCII behaviour (the repository only manipulates
ASCII configuration values, URLs, and gazetteer keys in the checked paths);
floats are modelled by rationals; `None` by `Option`.  External collaborators
(DNS resolution, the phonenumbers library, the OpenAI enrichment call) are
modelled as explicit function parameters, mirroring the spec, which treats
them as injected interfaces.
-/

namespace ManuID

/-- Python truthiness of an optional string: `None` and the empty string are
falsy, every other string is truthy. -/
def optTruthy : Option String → Bool
  | none => false
  | some s => s ≠ ""

/-! String primitives.  They are defined over the character list of the
string so that every function of this development evaluates by kernel
reduction; each mirrors the corresponding Python `str` method (ASCII
model). -/

/-- Python `str.lower()`. -/
def pyLower (s : String) : String := String.mk (s.data.map Char.toLower)

/-- Python `str.strip()`. -/
def pyStrip (s : String) : String :=
  String.mk (((s.data.dropWhile Char.isWhitespace).reverse.dropWhile
    Char.isWhitespace).reverse)

/-- Split at every character satisfying `p`, keeping empty pieces. -/
def splitCharsAux (p : Char → Bool) : List Char → List (List Char)
  | [] => [[]]
  | c :: rest =>
    match splitCharsAux p rest with
    | [] => if p c then [[], []] else [[c]]
    | g :: gs => if p c then [] :: g :: gs else (c :: g) :: gs

def pySplit (p : Char → Bool) (s : String) : List String :=
  (splitCharsAux p s.data).map String.mk

/-- Python slicing `s[:n]`. -/
def pyTake (s : String) (n : Nat) : String := String.mk (s.data.take n)

/-- Python `str.endswith(suffix)`. -/
def pyEndsWith (s suffix : String) : Bool := suffix.data.isSuffixOf s.data

/-! ## Fetcher (`app/services/scraper.py`, `app/config.py`) -/

/-- The classified failures raised as `ScrapeError` by `scraper.py`, one
constructor per distinct `raise` site relevant to pre-connection validation. -/
inductive ScrapeErr where
  | SchemeNotAllowed
  | HostnameMissing
  | UnresolvedHost
  | DomainNotAllowlisted
  | PrivateAddress
  deriving DecidableEq, Repr

/-- An IPv4 address as a natural number below 2^32.  The validation paths the
claims exercise resolve to IPv4 addresses; `a.b.c.d` is encoded big-endian. -/
def ipv4 (a b c d : Nat) : Nat := ((a * 256 + b) * 256 + c) * 256 + d

/-- Membership of an address in a CIDR network `base/bits`. -/
def inNet (ip base bits : Nat) : Bool := ip / 2 ^ (32 - bits) == base / 2 ^ (32 - bits)

/-- Embedding of `_is_private_ip` from scraper.py for IPv4 addresses: the
`ipaddress` properties `is_private`, `is_loopback`, `is_link_local` and
`is_multicast` (their IPv4 ranges), plus the modules own `PRIVATE_NETS`
list (whose IPv4 members are 10/8, 172.16/12, 192.168/16, 127/8,
169.254/16). -/
def is_private_ip (ip : Nat) : Bool :=
  -- ipaddress.IPv4Address.is_private ranges
  inNet ip (ipv4 0 0 0 0) 8 || inNet ip (ipv4 10 0 0 0) 8 ||
  inNet ip (ipv4 127 0 0 0) 8 || inNet ip (ipv4 169 254 0 0) 16 ||
  inNet ip (ipv4 172 16 0 0) 12 || inNet ip (ipv4 192 0 0 0) 29 ||
  inNet ip (ipv4 192 0 0 170) 31 || inNet ip (ipv4 192 0 2 0) 24 ||
  inNet ip (ipv4 192 168 0 0) 16 || inNet ip (ipv4 198 18 0 0) 15 ||
  inNet ip (ipv4 198 51 100 0) 24 || inNet ip (ipv4 203 0 113 0) 24 ||
  inNet ip (ipv4 240 0 0 0) 4 || inNet ip (ipv4 255 255 255 255) 32 ||
  -- is_multicast (is_loopback and is_link_local are covered by 127/8, 169.254/16)
  inNet ip (ipv4 224 0 0 0) 4 ||
  -- PRIVATE_NETS from scraper.py (IPv4 members, all already listed above)
  inNet ip (ipv4 10 0 0 0) 8 || inNet ip (ipv4 172 16 0 0) 12 ||
  inNet ip (ipv4 192 168 0 0) 16 || inNet ip (ipv4 127 0 0 0) 8 ||
  inNet ip (ipv4 169 254 0 0) 16

/-- Embedding of `Settings.is_domain_allowed` from config.py.  `allowlist`
models `scrape_allowlist_set`: the configured entries, already trimmed and
lowercased by the settings parser. -/
def is_domain_allowed (allowlist : List String) (hostname : String) : Bool :=
  if allowlist = [] then false
  else
    let host := pyLower hostname
    host ∈ allowlist || allowlist.any (fun item => pyEndsWith host ("." ++ item))

/-- Embedding of `_assert_public_hostname` from scraper.py.  `resolve` models
`socket.getaddrinfo`: `none` is a `gaierror` (DNS failure), `some ips` the
list of resolved addresses. -/
def assert_public_hostname (resolve : String → Option (List Nat)) (hostname : String) :
    Except ScrapeErr Unit :=
  match resolve hostname with
  | none => .error .UnresolvedHost
  | some ips => if ips.any is_private_ip then .error .PrivateAddress else .ok ()

/-- A URL as seen through `urllib.parse.urlparse`: its scheme and hostname.
`urlparse` yields `None` for a missing hostname, modelled by `none`. -/
structure Url where
  scheme : String
  hostname : Option String
  deriving DecidableEq, Repr

/-- Embedding of `validate_scrape_url` from scraper.py: the pre-connection
validation applied to the requested URL before any network traffic. -/
def validate_scrape_url (resolve : String → Option (List Nat)) (allowlist : List String)
    (u : Url) : Except ScrapeErr Unit :=
  if ¬ (u.scheme = "http" ∨ u.scheme = "https") then .error .SchemeNotAllowed
  else
    match u.hostname with
    | none => .error .HostnameMissing
    | some host =>
      if ¬ is_domain_allowed allowlist host then .error .DomainNotAllowlisted
      else assert_public_hostname resolve host

/-! ## Data model (`app/models.py`, relevant fields) -/

inductive CompanyType where
  | MANUFACTURER | DISTRIBUTOR | BOTH
  deriving DecidableEq, Repr

inductive CompanyStatus where
  | ACTIVE | LIMITED | INACTIVE
  deriving DecidableEq, Repr

inductive ContactType where
  | SALES | PROCUREMENT | SUPPORT | GENERAL | QA | REGULATORY
  deriving DecidableEq, Repr

inductive LinkRole where
  | PRIMARY_MANUFACTURER | AUTHORIZED_DISTRIBUTOR | RESELLER
  deriving DecidableEq, Repr

inductive VerificationState where
  | UNVERIFIED | AUTO_VERIFIED | HUMAN_VERIFIED
  deriving DecidableEq, Repr

structure Contact where
  ctype : ContactType
  email : Option String
  phone : Option String
  deriving DecidableEq, Repr

/-- Opaque range dictionary returned by enrichment (`{min,max,...}`); its
contents are stored but never inspected by the core. -/
structure RangeDict where
  entries : List (String × Int)
  deriving DecidableEq, Repr

/-- The `Company` aggregate (models.py).  Timestamps are UTC instants in
seconds.  Of the JSON `compliance` map only the `pharmacopeia_supported` key
is ever read or written by the core, so the model carries that list. -/
structure Company where
  id : Nat
  name : String
  company_type : CompanyType
  website : Option String
  hq_country : Option String
  certifications : List String
  pharmacopeia_supported : List String
  regions_served : List String
  lead_time_days_range : Option RangeDict
  moq_range : Option RangeDict
  status : CompanyStatus
  confidence_score : ℚ
  verification_state : VerificationState
  last_verified_at : Option Int
  verification_source : Option String
  contacts : List Contact
  deriving DecidableEq, Repr

/-! ## Rounding

Python `round(x, n)` on floats rounds half to even; the model uses Mathlib
round (half away from zero on positives).  The two differ only on exact
half-multiples of `10^-n`, which the scoring paths never hit on the values
the claims speak about. -/

def roundTo (n : Nat) (x : ℚ) : ℚ := (round (x * 10 ^ n) : ℚ) / 10 ^ n

/-! ## Ranking scorer (`app/services/scoring.py`) -/

/-- The two fields of `SearchVendorsRequest` that `score_company` reads. -/
structure SearchFilters where
  certifications : List String
  role : Option LinkRole
  deriving DecidableEq, Repr

/-- Embedding of `_freshness_score`.  `now` is the current UTC instant in
seconds, and `age_days` reproduces `timedelta.days` (floor division). -/
def freshness_score (now : Int) (last_verified_at : Option Int) : ℚ × String :=
  match last_verified_at with
  | none => ((0.2 : ℚ), "No recent verification timestamp")
  | some t =>
    let age_days : Int := (now - t).fdiv 86400
    if age_days ≤ 30 then ((1.0 : ℚ), "Verified in last 30 days")
    else if age_days ≤ 90 then ((0.8 : ℚ), "Verified in last 90 days")
    else if age_days ≤ 180 then ((0.6 : ℚ), "Verified in last 180 days")
    else if age_days ≤ 365 then ((0.4 : ℚ), "Verified in last 1 year")
    else ((0.2 : ℚ), "Verification is older than 1 year")

/-- Embedding of `_compliance_coverage`. -/
def compliance_coverage (company : Company) : ℚ × String :=
  let supported := company.pharmacopeia_supported
  if supported = [] then ((0.3 : ℚ), "No pharmacopeia support listed")
  else (min (1 : ℚ) ((0.35 : ℚ) + (0.1 : ℚ) * supported.length),
        s!"Supports {supported.length} pharmacopeia standard(s)")

def sortStrings (l : List String) : List String :=
  l.mergeSort (fun a b => !(decide (b < a)))

/-- Embedding of `_certification_match`.  Python set semantics are modelled
with `dedup` on the lowercased lists; `matched` enumerates the intersection. -/
def certification_match (company : Company) (filters : List String) : ℚ × String :=
  if filters = [] then ((0.7 : ℚ), "No certification filter requested")
  else
    let company_certs := (company.certifications.map pyLower).dedup
    let requested := (filters.map pyLower).dedup
    let matched := requested.filter (fun x => x ∈ company_certs)
    if matched = [] then ((0 : ℚ), "Certification filter not matched")
    else ((matched.length : ℚ) / (requested.length : ℚ),
          s!"Matched certifications: " ++ String.intercalate ", " (sortStrings matched))

/-- Embedding of `score_company` from scoring.py. -/
def score_company (company : Company) (request : SearchFilters)
    (matched_role : Option LinkRole) (now : Int) : ℚ × List String :=
  let fr := freshness_score now company.last_verified_at
  let co := compliance_coverage company
  let ce := certification_match company request.certifications
  let confidence := max (0 : ℚ) (min company.confidence_score 1)
  let confReason := s!"Confidence score " ++ toString (roundTo 2 confidence)
  let (role_bonus, roleReasons) :=
    match request.role with
    | some r =>
      if matched_role = some r then ((1.0 : ℚ), ["Role matched requested"])
      else ((0 : ℚ), ["Role differs from requested"])
    | none => ((0 : ℚ), [])
  let status_score : ℚ :=
    if company.status = .INACTIVE then 0.1
    else if company.status = .ACTIVE then 1.0 else 0.5
  let total :=
    (0.32 : ℚ) * confidence + (0.24 : ℚ) * fr.1 + (0.2 : ℚ) * co.1 +
    (0.14 : ℚ) * ce.1 + (0.06 : ℚ) * role_bonus + (0.04 : ℚ) * status_score
  (roundTo 4 total, [fr.2, co.2, ce.2, confReason] ++ roleReasons)

/-! ## Confidence estimator (`_calculate_auto_confidence`, ingestion.py) -/

/-- An ephemeral vendor candidate (`ParsedCompany`, ingestion.py). -/
structure ParsedCompany where
  name : String
  website : Option String
  email : Option String
  phone : Option String
  country : Option String
  raw_text : String
  deriving DecidableEq, Repr

/-- Suffix of `l` after the first occurrence of the three characters
`://`, or `none` when absent. -/
def afterSchemeSep : List Char → Option (List Char)
  | [] => none
  | ':' :: '/' :: '/' :: rest => some rest
  | _ :: rest => afterSchemeSep rest

/-- Characters of `l` after its last `@`, or all of `l` when `@` is absent. -/
def afterLastAt (l : List Char) : List Char :=
  l.foldl (fun acc c => if c = '@' then [] else acc ++ [c]) []

/-- Model of `urllib.parse.urlparse(u).hostname` for absolute `scheme://`
URLs (the only shape reaching it in the checked paths): the authority runs
from after `://` to the first of `/?#`, userinfo before the last `@` and a
`:port` suffix are dropped, and the result is lowercased; an empty host is
`None`.  Bracketed IPv6 literals are outside the model. -/
def urlHostname (u : String) : Option String :=
  match afterSchemeSep u.data with
  | none => none
  | some rest =>
    let netloc := rest.takeWhile (fun c => c ≠ '/' ∧ c ≠ '?' ∧ c ≠ '#')
    let host := (afterLastAt netloc).takeWhile (fun c => c ≠ ':')
    if host = [] then none else some (String.mk (host.map Char.toLower))

/-- Embedding of `_calculate_auto_confidence` from ingestion.py. -/
def calculate_auto_confidence (company : ParsedCompany) (source_domain : String) : ℚ :=
  let score : ℚ := 0.35
  let score := if optTruthy company.website then score + 0.2 else score
  let score := if optTruthy company.email then score + 0.2 else score
  let score := if optTruthy company.phone then score + 0.1 else score
  let score := if optTruthy company.country then score + 0.1 else score
  let score :=
    if source_domain ≠ "" ∧ optTruthy company.website then
      if urlHostname (company.website.getD "") = some source_domain then score + 0.05
      else score
    else score
  roundTo 3 (min score 0.95)

/-! ## Extraction (`app/services/ingestion.py`, heuristic DOM strategy) -/

/-- Collapse every whitespace run to a single space (`re.sub(r"\s+", " ", .)`);
the flag records whether the previous character was whitespace. -/
def collapseWsAux : Bool → List Char → List Char
  | _, [] => []
  | prevWs, c :: rest =>
    if c.isWhitespace then
      if prevWs then collapseWsAux true rest else ' ' :: collapseWsAux true rest
    else c :: collapseWsAux false rest

/-- Embedding of `_clean_text`: collapse whitespace runs, then strip. -/
def clean_text (s : String) : String := pyStrip (String.mk (collapseWsAux false s.data))

/-- Python `str.split()` with no argument: split on whitespace runs, no empty
pieces. -/
def pyWords (s : String) : List String := (pySplit Char.isWhitespace s).filter (fun w => w ≠ "")

/-- Character class `[A-Z0-9._%+-]` of `EMAIL_RE` under `re.I` (ASCII model). -/
def isLocalChar (c : Char) : Bool :=
  c.isAlphanum || c = '.' || c = '_' || c = '%' || c = '+' || c = '-'

/-- Character class `[A-Z0-9.-]` of `EMAIL_RE` under `re.I` (ASCII model). -/
def isDomainChar (c : Char) : Bool := c.isAlphanum || c = '.' || c = '-'

/-- Length of the maximal letter run at the head of `l` (`[A-Z]{2,}` body). -/
def alphaRunLen (l : List Char) : Nat := (l.takeWhile Char.isAlpha).length

/-- Greedy match of `EMAIL_RE` anchored at the head of `l`: maximal local
part, `@`, then inside the maximal `[A-Z0-9.-]` run the backtracking of the
greedy `+` picks the largest split point `k` whose character is `.` and is
followed by at least two letters. -/
def matchEmailAt (l : List Char) : Option (List Char) :=
  let lp := l.takeWhile isLocalChar
  if lp = [] then none
  else
    match l.drop lp.length with
    | '@' :: r2 =>
      let dom := r2.takeWhile isDomainChar
      let ks := (List.range dom.length).filter
        (fun k => decide (1 ≤ k) && decide (dom.get? k = some '.') &&
                  decide (2 ≤ alphaRunLen (dom.drop (k + 1))))
      match ks.max? with
      | none => none
      | some k =>
        some (lp ++ '@' :: dom.take k ++ '.' :: (dom.drop (k + 1)).takeWhile Char.isAlpha)
    | _ => none

/-- Leftmost `EMAIL_RE` match: try each start position left to right. -/
def firstEmailMatch : List Char → Option (List Char)
  | [] => none
  | c :: rest =>
    match matchEmailAt (c :: rest) with
    | some m => some m
    | none => firstEmailMatch rest

/-- Embedding of `_extract_first_email`: first match, lowercased. -/
def extract_first_email (s : String) : Option String :=
  (firstEmailMatch s.data).map (fun m => String.mk (m.map Char.toLower))

/-- Character class `[0-9\s().-]` of `PHONE_RE`. -/
def isPhoneClass (c : Char) : Bool :=
  c.isDigit || c.isWhitespace || c = '(' || c = ')' || c = '.' || c = '-'

def optIsDigit : Option Char → Bool
  | some c => c.isDigit
  | none => false

/-- Greedy match of `PHONE_RE` (`\+?[0-9][0-9\s().-]{6,}[0-9]`) anchored at
the head of `l`; on success returns the matched text and the rest of the
input after it.  The backtracking of `{6,}` picks the largest `j ≥ 6` whose
run character is the closing digit. -/
def matchPhoneAt (l : List Char) : Option (List Char × List Char) :=
  let core := fun (plus : List Char) (m : List Char) =>
    match m with
    | [] => none
    | d :: rest =>
      if d.isDigit then
        let run := rest.takeWhile isPhoneClass
        let ks := (List.range run.length).filter
          (fun j => decide (6 ≤ j) && optIsDigit (run.get? j))
        match ks.max? with
        | none => none
        | some j => some (plus ++ d :: run.take (j + 1), rest.drop (j + 1))
      else none
  match l with
  | '+' :: rest => core ['+'] rest
  | _ => core [] l

/-- All `PHONE_RE.findall` matches, left to right and non-overlapping.  The
fuel argument (one unit per consumed character) only encodes termination. -/
def phoneMatchesAux : Nat → List Char → List (List Char)
  | 0, _ => []
  | _, [] => []
  | fuel + 1, c :: rest =>
    match matchPhoneAt (c :: rest) with
    | some (m, after) => m :: phoneMatchesAux fuel after
    | none => phoneMatchesAux fuel rest

def phoneMatches (l : List Char) : List (List Char) := phoneMatchesAux l.length l

/-- Embedding of `_extract_first_phone`.  `phonelib` models the external
phonenumbers library on a cleaned match: `some e164` when the number parses
and is possible, `none` on a parse exception or an impossible number. -/
def extract_first_phone (phonelib : String → Option String) (s : String) : Option String :=
  (phoneMatches s.data).findSome? (fun m => phonelib (clean_text (String.mk m)))

/-- The `COMMON_COUNTRIES` gazetteer, in the dictionary order of the source. -/
def COMMON_COUNTRIES : List (String × String) :=
  [("usa", "United States"), ("united states", "United States"),
   ("uk", "United Kingdom"), ("united kingdom", "United Kingdom"),
   ("germany", "Germany"), ("france", "France"), ("italy", "Italy"),
   ("spain", "Spain"), ("india", "India"), ("china", "China"),
   ("japan", "Japan"), ("switzerland", "Switzerland"),
   ("netherlands", "Netherlands"), ("belgium", "Belgium"),
   ("singapore", "Singapore"), ("south korea", "South Korea"),
   ("korea", "South Korea")]

/-- Python `\w` (ASCII model). -/
def isWordChar (c : Char) : Bool := c.isAlphanum || c = '_'

/-- Word-boundary search `\b key \b` in a text, scanning left to right with
the previous character tracked for the leading boundary. -/
def keyMatchAux (key : List Char) : Option Char → List Char → Bool
  | _, [] => false
  | prev, c :: rest =>
    ((match prev with | none => true | some p => !isWordChar p) &&
     key.isPrefixOf (c :: rest) &&
     (match (c :: rest).drop key.length with
      | [] => true
      | d :: _ => !isWordChar d)) ||
    keyMatchAux key (some c) rest

/-- Embedding of `_extract_country`: first gazetteer key (in dictionary
order) with a word-boundary match in the lowercased text. -/
def extract_country (text : String) : Option String :=
  let lower := pyLower text
  COMMON_COUNTRIES.findSome?
    (fun kv => if keyMatchAux kv.1.data none lower.data then some kv.2 else none)

/-- A candidate container as the heuristic strategy sees it: the tag name,
whether it holds `th` and `td` descendants, its `get_text(" ", strip=True)`
text, and the result of `_best_website_from_tag` (the first outbound absolute
http(s) anchor — DOM traversal and URL joining being the external html/url
libraries, that value is carried as data on the tag). -/
structure TagModel where
  tagName : String
  hasTh : Bool
  hasTd : Bool
  rawText : String
  website : Option String
  deriving DecidableEq, Repr

def generic_header_tokens : List String :=
  ["vendor", "vendors", "supplier", "suppliers", "name", "email", "country", "phone"]

/-- Separators of the name heuristic (`re.split(r"\||-|,|;|•", text)`). -/
def nameSeps : List Char := ['|', '-', ',', ';', '•']

/-- The name-heuristic tail of `_collect_candidate_from_tag`: everything after
the prose-noise check. -/
def collect_name_stage (text : String)
    (website email phone country : Option String) : Option ParsedCompany :=
  let first_piece := pyStrip (String.mk (text.data.takeWhile (fun c => decide (c ∉ nameSeps))))
  let name := if 3 ≤ first_piece.length then first_piece else pyTake text 120
  let name_words := (pyWords name).map pyLower
  if name_words ≠ [] ∧ name_words.all (fun w => decide (w ∈ generic_header_tokens)) then none
  else if ¬ name.data.any Char.isAlpha then none
  else
    let name :=
      if 12 < (pyWords name).length then String.intercalate " " ((pyWords name).take 12)
      else name
    some ⟨name, website, email, phone, country, pyTake text 5000⟩

/-- Embedding of `_collect_candidate_from_tag` from ingestion.py. -/
def collect_candidate_from_tag (phonelib : String → Option String)
    (tag : TagModel) : Option ParsedCompany :=
  if tag.tagName = "tr" ∧ tag.hasTh ∧ ¬ tag.hasTd then none
  else
    let text := clean_text tag.rawText
    if text.length < 5 then none
    else
      let website := tag.website
      let email := extract_first_email text
      let phone := extract_first_phone phonelib text
      let country := extract_country text
      if 60 < (pyWords text).length ∧
         ¬ optTruthy website ∧ ¬ optTruthy email ∧ ¬ optTruthy phone then none
      else collect_name_stage text website email phone country

/-! ## Deduplication (`parse_vendor_companies`, ingestion.py) -/

structure ParseSummary where
  companies : List ParsedCompany
  skipped_rows : Nat
  deriving DecidableEq, Repr

/-- Number of truthy fields among website, email, phone, country (the
richness comparison of the dedup loop). -/
def fieldRichness (c : ParsedCompany) : Nat :=
  (if optTruthy c.website then 1 else 0) + (if optTruthy c.email then 1 else 0) +
  (if optTruthy c.phone then 1 else 0) + (if optTruthy c.country then 1 else 0)

/-- Canonical dedup key: `(website or "").lower().strip()`, falling back to
`name.lower().strip()` when that is empty. -/
def dedupKey (c : ParsedCompany) : String :=
  let key := pyStrip (pyLower (c.website.getD ""))
  if key = "" then pyStrip (pyLower c.name) else key

def alistGet (m : List (String × ParsedCompany)) (k : String) : Option ParsedCompany :=
  (m.find? (fun p => p.1 == k)).map Prod.snd

/-- Python dict assignment: replace in place when the key exists (keeping its
position), append otherwise. -/
def alistSet : List (String × ParsedCompany) → String → ParsedCompany →
    List (String × ParsedCompany)
  | [], k, v => [(k, v)]
  | (k', v') :: rest, k, v =>
    if k' = k then (k', v) :: rest else (k', v') :: alistSet rest k v

/-- One iteration of the dedup loop over `candidates`. -/
def dedupStep (st : List (String × ParsedCompany) × Nat) (item : ParsedCompany) :
    List (String × ParsedCompany) × Nat :=
  let key := dedupKey item
  if key = "" ∨ item.name.length < 3 then (st.1, st.2 + 1)
  else
    match alistGet st.1 key with
    | none => (alistSet st.1 key item, st.2)
    | some existing =>
      if fieldRichness existing < fieldRichness item then (alistSet st.1 key item, st.2)
      else (st.1, st.2)

/-- The dedup phase of `parse_vendor_companies`: fold the loop over the
concatenated candidates, then keep the dict values with a name of at least 3
characters. -/
def dedupCompanies (candidates : List ParsedCompany) (skipped0 : Nat) : ParseSummary :=
  let st := candidates.foldl dedupStep ([], skipped0)
  ⟨(st.1.map Prod.snd).filter (fun x => decide (3 ≤ x.name.length)), st.2⟩

/-- A document as the two strategies see it: the candidates produced by the
structured-data (JSON-LD) strategy, and the containers matched by the
selector groups in document order.  The html and json parsing that produces
them is the external BeautifulSoup/json machinery. -/
structure Soup where
  ldCompanies : List ParsedCompany
  tags : List TagModel
  deriving DecidableEq, Repr

/-- Embedding of `parse_vendor_companies`: JSON-LD candidates first, then the
selector loop (counting rejected containers as skipped), then dedup. -/
def parse_vendor_companies (phonelib : String → Option String) (soup : Soup) : ParseSummary :=
  let st := soup.tags.foldl
    (fun (st : List ParsedCompany × Nat) (tag : TagModel) =>
      match collect_candidate_from_tag phonelib tag with
      | none => (st.1, st.2 + 1)
      | some c => (st.1 ++ [c], st.2))
    (soup.ldCompanies, 0)
  dedupCompanies st.1 st.2

/-! ## Normalizer (`app/services/normalizer.py`)

The character similarity is `difflib.SequenceMatcher(a, b).ratio()`.  The
model below reproduces its algorithm (Ratcliff-Obershelp: recursive longest
matching block) for inputs without autojunk effects; difflib only junks
popular elements when `b` has at least 200 characters, far above every
catalog string this development evaluates. -/

/-- Ascending positions of character `c` in `b` (the difflib `b2j` table). -/
def positionsOf (b : List Char) (c : Char) : List Nat :=
  (List.range b.length).filter (fun j => decide (b.get? j = some c))

/-- Inner loop of difflib `find_longest_match` for one index `i` of `a`:
walk the positions of `a[i]` in `b`, extending diagonals recorded in `j2len`
and updating the best block `(besti, bestj, bestsize)`. -/
def flmInner (blo bhi : Nat) (j2len : Nat → Nat) (i : Nat) :
    List Nat → (Nat → Nat) → (Nat × Nat × Nat) → ((Nat → Nat) × (Nat × Nat × Nat))
  | [], newj2len, best => (newj2len, best)
  | j :: js, newj2len, best =>
    if blo ≤ j ∧ j < bhi then
      let k := (if j = 0 then 0 else j2len (j - 1)) + 1
      let newj2len' := fun j' => if j' = j then k else newj2len j'
      let best' := if best.2.2 < k then (i + 1 - k, j + 1 - k, k) else best
      flmInner blo bhi j2len i js newj2len' best'
    else flmInner blo bhi j2len i js newj2len best

/-- Outer loop of `find_longest_match` over the indices of `a`. -/
def flmOuter (a b : List Char) (blo bhi : Nat) :
    List Nat → (Nat → Nat) → (Nat × Nat × Nat) → (Nat × Nat × Nat)
  | [], _, best => best
  | i :: is, j2len, best =>
    let js := match a.get? i with
      | some c => positionsOf b c
      | none => []
    let r := flmInner blo bhi j2len i js (fun _ => 0) best
    flmOuter a b blo bhi is r.1 r.2

/-- difflib `find_longest_match` on `a[alo:ahi]` against `b[blo:bhi]` with no
junk: the earliest maximal matching block `(i, j, size)`. -/
def findLongestMatch (a b : List Char) (alo ahi blo bhi : Nat) : Nat × Nat × Nat :=
  flmOuter a b blo bhi (List.range' alo (ahi - alo)) (fun _ => 0) (alo, blo, 0)

/-- Total size of the matching blocks (the recursive divide of
`get_matching_blocks`); the fuel only encodes termination, one unit per
level of the recursion, and `a.length + 1` levels always suffice. -/
def matchTotalAux (a b : List Char) : Nat → Nat × Nat × Nat × Nat → Nat
  | 0, _ => 0
  | fuel + 1, (alo, ahi, blo, bhi) =>
    let m := findLongestMatch a b alo ahi blo bhi
    if m.2.2 = 0 then 0
    else
      m.2.2 + matchTotalAux a b fuel (alo, m.1, blo, m.2.1) +
        matchTotalAux a b fuel (m.1 + m.2.2, ahi, m.2.1 + m.2.2, bhi)

def matchTotal (a b : List Char) : Nat :=
  matchTotalAux a b (a.length + 1) (0, a.length, 0, b.length)

/-- Model of `difflib.SequenceMatcher(a=sa, b=sb).ratio()`:
`2·M / (len sa + len sb)`, and `1.0` when both strings are empty. -/
def charSimilarity (sa sb : String) : ℚ :=
  let a := sa.data
  let b := sb.data
  if a.length + b.length = 0 then 1
  else (2 * matchTotal a b : ℚ) / ((a.length + b.length : Nat) : ℚ)

/-- Embedding of `_tokenize`: lowercased runs of `[a-zA-Z0-9]`. -/
def tokenize (value : String) : List String :=
  (pySplit (fun c => !c.isAlphanum) (pyLower value)).filter (fun t => t ≠ "")

/-- Token overlap `|query ∩ candidate| / max(|query|, 1)` on token sets;
`queryTokens` is the deduplicated token set of the cleaned query. -/
def tokenOverlap (queryTokens : List String) (candidate : String) : ℚ :=
  let ct := (tokenize candidate).dedup
  ((queryTokens.filter (fun t => decide (t ∈ ct))).length : ℚ) /
    ((max queryTokens.length 1 : Nat) : ℚ)

/-- A `ProductType` row (models.py). -/
structure ProductTypeM where
  id : Nat
  slug : String
  name : String
  description : Option String
  keywords : List String
  pharmacopeia : List String
  deriving DecidableEq, Repr

/-- Score of one candidate string: `0.55 * ratio + 0.45 * overlap`. -/
def candidateScore (cleanQuery : String) (queryTokens : List String)
    (candidate : String) : ℚ :=
  (0.55 : ℚ) * charSimilarity (pyLower cleanQuery) (pyLower candidate) +
  (0.45 : ℚ) * tokenOverlap queryTokens candidate

/-- Score of a `ProductType`: the max of its name, slug and keyword scores,
starting from the loop initialisation `0.0`. -/
def itemScore (cleanQuery : String) (queryTokens : List String)
    (item : ProductTypeM) : ℚ :=
  (([item.name, item.slug] ++ item.keywords).map
    (candidateScore cleanQuery queryTokens)).foldl max 0

/-- The selection loop of `normalize_product_type_query`: keep the first
item whose score strictly exceeds the running best. -/
def pickBest (score : ProductTypeM → ℚ) :
    List ProductTypeM → Option ProductTypeM × ℚ → Option ProductTypeM × ℚ
  | [], acc => acc
  | item :: rest, (b, s) =>
    if s < score item then pickBest score rest (some item, score item)
    else pickBest score rest (b, s)

structure NormalizationResult where
  product_type : Option ProductTypeM
  normalized_query : String
  deriving DecidableEq, Repr

/-- Embedding of `normalize_product_type_query` from normalizer.py; the
catalog list stands for `db.query(ProductType).all()`. -/
def normalize_product_type_query (catalog : List ProductTypeM) (query : String) :
    NormalizationResult :=
  let clean_query := pyStrip query
  if clean_query = "" then ⟨none, query⟩
  else if catalog = [] then ⟨none, clean_query⟩
  else
    let query_tokens := (tokenize clean_query).dedup
    let best := pickBest (itemScore clean_query query_tokens) catalog (none, 0)
    match best.1 with
    | some item =>
      if (0.45 : ℚ) ≤ best.2 then ⟨some item, item.name⟩ else ⟨none, clean_query⟩
    | none => ⟨none, clean_query⟩

/-! ## Slug and title (`_slugify`, ingestion.py) -/

/-- Membership in `[a-z0-9]`. -/
def isLowerAlnum (c : Char) : Bool := (decide ('a' ≤ c) && decide (c ≤ 'z')) || c.isDigit

/-- Replace each maximal run outside `[a-z0-9]` with one underscore
(`re.sub(r"[^a-z0-9]+", "_", .)`). -/
def slugCore : Bool → List Char → List Char
  | _, [] => []
  | prevSep, c :: rest =>
    if isLowerAlnum c then c :: slugCore false rest
    else if prevSep then slugCore true rest
    else '_' :: slugCore true rest

/-- Python `str.strip("_")`. -/
def stripUnderscores (l : List Char) : List Char :=
  ((l.dropWhile (fun c => c = '_')).reverse.dropWhile (fun c => c = '_')).reverse

/-- Embedding of `_slugify`: lowercase, collapse non-`[a-z0-9]` runs to
underscores, strip underscores, truncate to 120 characters, default when
empty. -/
def slugify (value : String) : String :=
  let slug := String.mk (stripUnderscores (slugCore false (pyLower value).data))
  let slug := pyTake slug 120
  if slug = "" then "custom_product_type" else slug

/-- Python `str.title()` (ASCII model): uppercase a letter that follows a
non-letter, lowercase every other letter. -/
def titleAux : Bool → List Char → List Char
  | _, [] => []
  | prevCased, c :: rest =>
    if c.isAlpha then
      (if prevCased then c.toLower else c.toUpper) :: titleAux true rest
    else c :: titleAux false rest

def pyTitle (s : String) : String := String.mk (titleAux false s.data)

/-! ## Persistence model and merge engine (`ingest_from_url`, ingestion.py)

The relational store is modelled as lists of rows plus id counters; a
`select(...).scalar()` lookup is the first matching row. -/

structure SourceRecord where
  id : Nat
  source_name : String
  source_url : String
  retrieved_at : Int
  parser_version : String
  http_status : Nat
  content_hash : String
  deriving DecidableEq, Repr

structure CompanyProductType where
  product_type_id : Nat
  company_id : Nat
  role : LinkRole
  notes : String
  deriving DecidableEq, Repr

structure CompanyEvidence where
  company_id : Nat
  source_record_id : Nat
  field_name : String
  field_value : String
  confidence : ℚ
  deriving DecidableEq, Repr

structure Db where
  product_types : List ProductTypeM
  companies : List Company
  sources : List SourceRecord
  links : List CompanyProductType
  evidence : List CompanyEvidence
  nextProductTypeId : Nat
  nextCompanyId : Nat
  nextSourceId : Nat
  deriving DecidableEq, Repr

/-- Embedding of `_upsert_product_type`: reuse the normalizer match, else
reuse an existing row with the same slug, else create one. -/
def upsert_product_type (db : Db) (query : String) : Db × ProductTypeM :=
  let normalized := normalize_product_type_query db.product_types query
  match normalized.product_type with
  | some pt => (db, pt)
  | none =>
    let slug := slugify query
    match db.product_types.find? (fun pt => pt.slug == slug) with
    | some existing => (db, existing)
    | none =>
      let pt : ProductTypeM :=
        ⟨db.nextProductTypeId, slug, pyTitle (pyStrip query),
         some "User-created product type from ingestion/search query",
         [pyLower (pyStrip query)], []⟩
      ({ db with product_types := db.product_types ++ [pt],
                 nextProductTypeId := db.nextProductTypeId + 1 }, pt)

/-- ORM mutation writeback: replace the row with the same id. -/
def updateCompanyList (l : List Company) (c : Company) : List Company :=
  l.map (fun x => if x.id = c.id then c else x)

structure GetOrCreateOutcome where
  db : Db
  company : Company
  created : Bool
  changed : Bool

/-- Lookup order of `_get_or_create_company`: exact website match when the
candidate has a truthy website, else exact name match. -/
def lookupCompany (db : Db) (parsed : ParsedCompany) : Option Company :=
  match (if optTruthy parsed.website then
          db.companies.find? (fun c => c.website == parsed.website)
        else none) with
  | some c => some c
  | none => db.companies.find? (fun c => c.name == parsed.name)

/-- The defaults a freshly created `Company` row carries. -/
def newCompany (db : Db) (parsed : ParsedCompany) : Company :=
  ⟨db.nextCompanyId, parsed.name, .BOTH, parsed.website, parsed.country,
   [], [], [], none, none, .ACTIVE, (0.4 : ℚ), .UNVERIFIED, none, none, []⟩

/-- Fill-empty step for the website field. -/
def fillWebsite (parsed : ParsedCompany) (s : Company × Bool) : Company × Bool :=
  if optTruthy parsed.website ∧ ¬ optTruthy s.1.website then
    ({ s.1 with website := parsed.website }, true)
  else s

/-- Fill-empty step for the country field. -/
def fillCountry (parsed : ParsedCompany) (s : Company × Bool) : Company × Bool :=
  if optTruthy parsed.country ∧ ¬ optTruthy s.1.hq_country then
    ({ s.1 with hq_country := parsed.country }, true)
  else s

/-- Primary-contact maintenance: create one general contact when none exists
and an email or phone was extracted, else fill its empty fields. -/
def fillContact (parsed : ParsedCompany) (s : Company × Bool) : Company × Bool :=
  match s.1.contacts with
  | [] =>
    if optTruthy parsed.email ∨ optTruthy parsed.phone then
      ({ s.1 with contacts := [⟨.GENERAL, parsed.email, parsed.phone⟩] }, true)
    else s
  | primary :: rest =>
    let t : Contact × Bool :=
      if optTruthy parsed.email ∧ ¬ optTruthy primary.email then
        ({ primary with email := parsed.email }, true)
      else (primary, s.2)
    let t : Contact × Bool :=
      if optTruthy parsed.phone ∧ ¬ optTruthy t.1.phone then
        ({ t.1 with phone := parsed.phone }, true)
      else t
    ({ s.1 with contacts := t.1 :: rest }, t.2)

/-- Embedding of `_get_or_create_company`: lookup by exact website then exact
name, create with defaults when absent, then apply the fill-empty policy to
website, country and the primary general contact. -/
def get_or_create_company (db : Db) (parsed : ParsedCompany) : GetOrCreateOutcome :=
  let r : Db × Company × Bool :=
    match lookupCompany db parsed with
    | some c => (db, c, false)
    | none =>
      ({ db with companies := db.companies ++ [newCompany db parsed],
                 nextCompanyId := db.nextCompanyId + 1 }, newCompany db parsed, true)
  let s := fillContact parsed (fillCountry parsed (fillWebsite parsed (r.2.1, false)))
  ⟨{ r.1 with companies := updateCompanyList r.1.companies s.1 },
   s.1, r.2.2, s.2⟩

/-- Embedding of `_upsert_product_link`: add the link row when no row with
that (product type, company) pair exists. -/
def upsert_product_link (db : Db) (product_type_id company_id : Nat)
    (role : LinkRole) : Db :=
  match db.links.find?
      (fun l => l.product_type_id == product_type_id && l.company_id == company_id) with
  | some _ => db
  | none =>
    { db with links := db.links ++
        [⟨product_type_id, company_id, role, "Added by ingestion pipeline"⟩] }

/-- Embedding of `_add_evidence`: one row per truthy extracted field. -/
def add_evidence (db : Db) (companyId sourceId : Nat) (parsed : ParsedCompany)
    (confidence : ℚ) : Db :=
  let pairs : List (String × Option String) :=
    [("name", some parsed.name), ("website", parsed.website),
     ("email", parsed.email), ("phone", parsed.phone), ("country", parsed.country)]
  { db with evidence := db.evidence ++ pairs.filterMap (fun p =>
      if optTruthy p.2 then some ⟨companyId, sourceId, p.1, p.2.getD "", confidence⟩
      else none) }

/-- A partial enrichment patch as `_apply_enrichment` reads it: `some` for a
key present with the right runtime type, `none` otherwise. -/
structure EnrichmentPatch where
  certifications : Option (List String)
  regions_served : Option (List String)
  pharmacopeia_supported : Option (List String)
  lead_time_days_range : Option RangeDict
  moq_range : Option RangeDict
  deriving DecidableEq, Repr

/-- Python `sorted({*old, *[str(x).strip() for x in new if x]})`. -/
def mergeStringSet (old new : List String) : List String :=
  sortStrings ((old ++ (new.filter (fun x => x ≠ "")).map pyStrip).dedup)

/-- Embedding of `_apply_enrichment`: list fields are unioned, range fields
replaced; `none` covers both a failed and a disabled enrichment call. -/
def apply_enrichment (enrich : String → Option EnrichmentPatch) (company : Company)
    (parsed : ParsedCompany) : Company :=
  match enrich parsed.raw_text with
  | none => company
  | some patch =>
    let company :=
      match patch.certifications with
      | some certs =>
        { company with certifications := mergeStringSet company.certifications certs }
      | none => company
    let company :=
      match patch.regions_served with
      | some rs =>
        { company with regions_served := mergeStringSet company.regions_served rs }
      | none => company
    let company :=
      match patch.pharmacopeia_supported with
      | some ps =>
        { company with pharmacopeia_supported :=
            mergeStringSet company.pharmacopeia_supported ps }
      | none => company
    let company :=
      match patch.lead_time_days_range with
      | some lt => { company with lead_time_days_range := some lt }
      | none => company
    match patch.moq_range with
    | some mo => { company with moq_range := some mo }
    | none => company

/-- The external collaborators injected into the pipeline. -/
structure Externals where
  phonelib : String → Option String
  enrich : String → Option EnrichmentPatch

structure MergeOutcome where
  db : Db
  company : Company
  created : Bool
  changed : Bool

/-- The per-candidate body of the merge loop in `ingest_from_url`: resolve or
create the vendor, upsert the product link, unconditionally refresh the
verification metadata, apply enrichment, write evidence. -/
def mergeCandidate (ext : Externals) (db : Db) (productTypeId : Nat) (role : LinkRole)
    (source : SourceRecord) (final_url source_domain : String)
    (parsed : ParsedCompany) : MergeOutcome :=
  let gc := get_or_create_company db parsed
  let db := upsert_product_link gc.db productTypeId gc.company.id role
  let confidence := calculate_auto_confidence parsed source_domain
  let company := { gc.company with
    confidence_score := max gc.company.confidence_score confidence,
    last_verified_at := some source.retrieved_at,
    verification_source := some final_url,
    verification_state := .AUTO_VERIFIED }
  let company := apply_enrichment ext.enrich company parsed
  let db := { db with companies := updateCompanyList db.companies company }
  let db := add_evidence db company.id source.id parsed confidence
  ⟨db, company, gc.created, gc.changed⟩

/-- The fetch result consumed by `ingest_from_url`; the html text is carried
in parsed form (`Soup`). -/
structure ScrapeResult where
  requested_url : String
  final_url : String
  status_code : Nat
  soup : Soup
  content_hash : String

/-- The fields of `IngestURLRequest`. -/
structure IngestPayload where
  source_url : String
  source_name : String
  product_type_query : String
  role : LinkRole
  dry_run : Bool

structure IngestResponse where
  source_id : Option Nat
  inserted_companies : Nat
  updated_companies : Nat
  skipped_rows : Nat
  message : String
  deriving DecidableEq, Repr

structure IngestOutcome where
  response : IngestResponse
  db : Db

/-- The `str(exc)` text of each classified fetch failure (the dynamic parts
of the two host-dependent messages are not modelled). -/
def scrapeErrMessage : ScrapeErr → String
  | .SchemeNotAllowed => "Only HTTP/HTTPS URLs are allowed"
  | .HostnameMissing => "URL hostname is missing"
  | .UnresolvedHost => "Could not resolve hostname"
  | .DomainNotAllowlisted =>
    "Domain is not in SCRAPE_ALLOWLIST. Add it in env/config before ingestion."
  | .PrivateAddress => "Private or local addresses are blocked for scraping"

/-- The list of deduped candidates the non-dry-run branch of
`ingest_from_url` iterates over, read off the body of the function. -/
def ingestMergedList (ext : Externals) (r : ScrapeResult) : List ParsedCompany :=
  (parse_vendor_companies ext.phonelib r.soup).companies

/-- Embedding of `ingest_from_url`.  `fetched` is the outcome of the
`fetch_html` call (network IO), `now` the `retrieved_at` default applied when
the `SourceRecord` row is created. -/
def ingest_from_url (ext : Externals) (db : Db) (now : Int)
    (fetched : Except ScrapeErr ScrapeResult) (payload : IngestPayload) : IngestOutcome :=
  match fetched with
  | .error e => ⟨⟨none, 0, 0, 0, scrapeErrMessage e⟩, db⟩
  | .ok r =>
    let summary := parse_vendor_companies ext.phonelib r.soup
    if payload.dry_run then
      ⟨⟨none, summary.companies.length, 0, summary.skipped_rows,
        "Dry run completed. No database changes were made."⟩, db⟩
    else
      let source : SourceRecord :=
        ⟨db.nextSourceId, payload.source_name, r.final_url, now, "1.0",
         r.status_code, r.content_hash⟩
      let db := { db with sources := db.sources ++ [source],
                          nextSourceId := db.nextSourceId + 1 }
      let up := upsert_product_type db payload.product_type_query
      let source_domain := (urlHostname r.final_url).getD ""
      let st := summary.companies.foldl
        (fun (st : Db × Nat × Nat) parsed =>
          let out := mergeCandidate ext st.1 up.2.id payload.role source
            r.final_url source_domain parsed
          (out.db, st.2.1 + (if out.created then 1 else 0),
           st.2.2 + (if ¬ out.created ∧ out.changed then 1 else 0)))
        (up.1, 0, 0)
      let processed := st.2.1 + st.2.2
      ⟨⟨some source.id, st.2.1, st.2.2, summary.skipped_rows,
        s!"Ingestion complete: {processed} companies processed."⟩, st.1⟩

/-! # Claims -/

/-! ## C1: order of the pre-connection validation checks -/

/-- C1 counterexample: for `https://nope.com/` against the allowlist
`["example.com"]` and a DNS that does not resolve `nope.com` at all,
validation fails with the domain-not-allowlisted error, not the
unresolved-host error the claim requires for a URL whose hostname does not
resolve — the allowlist check runs before DNS resolution. -/
theorem C1_counterexample :
    validate_scrape_url (fun _ => none) ["example.com"] ⟨"https", some "nope.com"⟩ =
      .error .DomainNotAllowlisted ∧
    (∀ h : String, (fun (_ : String) => (none : Option (List Nat))) h = none) ∧
    ScrapeErr.DomainNotAllowlisted ≠ ScrapeErr.UnresolvedHost := by
  refine ⟨rfl, fun _ => rfl, by decide⟩

/-- C1 (amended): the fetcher's pre-connection validation applies its checks
in the order scheme → hostname present → allowlist → DNS resolution →
private-range; a non-allowlisted hostname fails with the
domain-not-allowlisted error regardless of DNS behaviour, an allowlisted
hostname that does not resolve fails with the unresolved-host error, and no
private-range check is short-circuited before the allowlist check. -/
theorem C1_validation_order (resolve : String → Option (List Nat))
    (allowlist : List String) (u : Url) :
    (¬ (u.scheme = "http" ∨ u.scheme = "https") →
      validate_scrape_url resolve allowlist u = .error .SchemeNotAllowed) ∧
    ((u.scheme = "http" ∨ u.scheme = "https") → u.hostname = none →
      validate_scrape_url resolve allowlist u = .error .HostnameMissing) ∧
    (∀ host, (u.scheme = "http" ∨ u.scheme = "https") → u.hostname = some host →
      is_domain_allowed allowlist host = false →
      validate_scrape_url resolve allowlist u = .error .DomainNotAllowlisted) ∧
    (∀ host, (u.scheme = "http" ∨ u.scheme = "https") → u.hostname = some host →
      is_domain_allowed allowlist host = true → resolve host = none →
      validate_scrape_url resolve allowlist u = .error .UnresolvedHost) ∧
    (∀ host ips, (u.scheme = "http" ∨ u.scheme = "https") → u.hostname = some host →
      is_domain_allowed allowlist host = true → resolve host = some ips →
      validate_scrape_url resolve allowlist u =
        (if ips.any is_private_ip then .error .PrivateAddress else .ok ())) := by
  refine ⟨?_, ?_, ?_, ?_, ?_⟩
  · intro h
    simp [validate_scrape_url, h]
  · intro h hh
    simp [validate_scrape_url, h, hh]
  · intro host h hh hall
    simp [validate_scrape_url, h, hh, hall]
  · intro host h hh hall hres
    simp [validate_scrape_url, h, hh, hall, assert_public_hostname, hres]
  · intro host ips h hh hall hres
    simp [validate_scrape_url, h, hh, hall, assert_public_hostname, hres]

/-- C1 witness: the amended order theorem applied at concrete inputs — an
allowlisted hostname that fails DNS resolution yields the unresolved-host
error. -/
theorem C1_validation_order_witness :
    validate_scrape_url (fun _ => none) ["example.com"] ⟨"https", some "example.com"⟩ =
      .error .UnresolvedHost :=
  (C1_validation_order (fun _ => none) ["example.com"]
      ⟨"https", some "example.com"⟩).2.2.2.1 "example.com"
    (Or.inr rfl) rfl (by decide) rfl

/-! ## C4: the extraction-confidence formula -/

def c4Candidate : ParsedCompany :=
  ⟨"Acme Pharma", some "https://acme.com/", some "sales@acme.com",
   some "+12125550186", some "United States", ""⟩

/-- C4 counterexample: a candidate with website, email, phone and country
present and no source-domain bonus (empty source domain) scores exactly
0.95, not the 0.90 the claim states for the bonus-free case — the base sum
0.35+0.20+0.20+0.10+0.10 already reaches the 0.95 clamp. -/
theorem C4_counterexample :
    calculate_auto_confidence c4Candidate "" = 0.95 ∧ ((0.95 : ℚ) ≠ 0.90) := by
  constructor
  · have h : calculate_auto_confidence c4Candidate "" =
        roundTo 3 (min ((0.35 : ℚ) + 0.2 + 0.2 + 0.1 + 0.1) 0.95) := rfl
    rw [h, roundTo, round_eq]
    norm_num
  · norm_num

/-- C4 (amended): the computed extraction confidence equals
`round(min(0.95, 0.35 + 0.20[website] + 0.20[email] + 0.10[phone] +
0.10[country] + 0.05[source-domain bonus]), 3)`; a candidate with website,
email, phone and country present scores exactly 0.95 both with and without
the source-domain bonus, the clamp making the bonus immaterial there. -/
theorem C4_confidence_formula (c : ParsedCompany) (sd : String) :
    calculate_auto_confidence c sd =
      roundTo 3 (min (0.95 : ℚ)
        ((0.35 : ℚ) + (if optTruthy c.website then (0.2 : ℚ) else 0) +
          (if optTruthy c.email then (0.2 : ℚ) else 0) +
          (if optTruthy c.phone then (0.1 : ℚ) else 0) +
          (if optTruthy c.country then (0.1 : ℚ) else 0) +
          (if sd ≠ "" ∧ optTruthy c.website ∧
              urlHostname (c.website.getD "") = some sd then (0.05 : ℚ) else 0))) ∧
    (optTruthy c.website = true → optTruthy c.email = true →
      optTruthy c.phone = true → optTruthy c.country = true →
      calculate_auto_confidence c sd = 0.95) := by
  have hform : calculate_auto_confidence c sd =
      roundTo 3 (min (0.95 : ℚ)
        ((0.35 : ℚ) + (if optTruthy c.website then (0.2 : ℚ) else 0) +
          (if optTruthy c.email then (0.2 : ℚ) else 0) +
          (if optTruthy c.phone then (0.1 : ℚ) else 0) +
          (if optTruthy c.country then (0.1 : ℚ) else 0) +
          (if sd ≠ "" ∧ optTruthy c.website ∧
              urlHostname (c.website.getD "") = some sd then (0.05 : ℚ) else 0))) := by
    unfold calculate_auto_confidence
    split_ifs <;> first | (exfalso; tauto) | norm_num [min_comm]
  refine ⟨hform, fun h1 h2 h3 h4 => ?_⟩
  rw [hform]
  simp only [h1, h2, h3, h4, if_true]
  split
  · rw [roundTo, round_eq]; norm_num
  · rw [roundTo, round_eq]; norm_num

/-- C4 witness: the amended formula theorem applied to a concrete all-fields
candidate with no source-domain bonus. -/
theorem C4_confidence_formula_witness :
    calculate_auto_confidence c4Candidate "" = 0.95 :=
  (C4_confidence_formula c4Candidate "").2 (by decide) (by decide) (by decide)
    (by decide)

/-! ## C8: dry-run purity -/

/-- C8: a dry-run ingestion whose fetch succeeds leaves the store untouched,
answers a null source id, reports the deduped candidate count as
`inserted_companies` and 0 as `updated_companies` with the no-changes
message, and that count is the length of exactly the candidate list the
equivalent non-dry-run call folds its merge step over. -/
theorem C8_dry_run_pure (ext : Externals) (db : Db) (now : Int)
    (r : ScrapeResult) (p : IngestPayload) :
    (ingest_from_url ext db now (.ok r) { p with dry_run := true }).db = db ∧
    (ingest_from_url ext db now (.ok r) { p with dry_run := true }).response.source_id
      = none ∧
    (ingest_from_url ext db now (.ok r)
        { p with dry_run := true }).response.inserted_companies
      = (ingestMergedList ext r).length ∧
    (ingest_from_url ext db now (.ok r)
        { p with dry_run := true }).response.updated_companies = 0 ∧
    (ingest_from_url ext db now (.ok r)
        { p with dry_run := true }).response.skipped_rows
      = (parse_vendor_companies ext.phonelib r.soup).skipped_rows ∧
    (ingest_from_url ext db now (.ok r)
        { p with dry_run := true }).response.message
      = "Dry run completed. No database changes were made." ∧
    ingestMergedList ext r = (parse_vendor_companies ext.phonelib r.soup).companies :=
  ⟨rfl, rfl, rfl, rfl, rfl, rfl, rfl⟩

/-! ## C3: the merge step always refreshes trust metadata -/

/-- Enrichment never touches the verification metadata, the confidence or
the row identity. -/
theorem apply_enrichment_preserves (e : String → Option EnrichmentPatch)
    (c : Company) (p : ParsedCompany) :
    (apply_enrichment e c p).confidence_score = c.confidence_score ∧
    (apply_enrichment e c p).last_verified_at = c.last_verified_at ∧
    (apply_enrichment e c p).verification_source = c.verification_source ∧
    (apply_enrichment e c p).verification_state = c.verification_state ∧
    (apply_enrichment e c p).id = c.id := by
  unfold apply_enrichment
  cases e p.raw_text with
  | none => exact ⟨rfl, rfl, rfl, rfl, rfl⟩
  | some patch =>
    rcases patch with ⟨c1, r1, p1, l1, m1⟩
    cases c1 <;> cases r1 <;> cases p1 <;> cases l1 <;> cases m1 <;>
      exact ⟨rfl, rfl, rfl, rfl, rfl⟩

theorem mem_updateCompanyList (l : List Company) (c : Company)
    (h : ∃ x ∈ l, x.id = c.id) : c ∈ updateCompanyList l c := by
  induction l with
  | nil => simp at h
  | cons y ys ih =>
    rcases h with ⟨x, hx, hid⟩
    rcases List.mem_cons.mp hx with hx | hx
    · subst hx
      simp [updateCompanyList, hid]
    · by_cases hy : y.id = c.id
      · simp [updateCompanyList, hy]
      · have : c ∈ updateCompanyList ys c := ih ⟨x, hx, hid⟩
        simpa [updateCompanyList, hy] using Or.inr this

theorem fillWebsite_id (p : ParsedCompany) (s : Company × Bool) :
    (fillWebsite p s).1.id = s.1.id := by
  unfold fillWebsite; split <;> rfl

theorem fillCountry_id (p : ParsedCompany) (s : Company × Bool) :
    (fillCountry p s).1.id = s.1.id := by
  unfold fillCountry; split <;> rfl

theorem fillContact_id (p : ParsedCompany) (s : Company × Bool) :
    (fillContact p s).1.id = s.1.id := by
  unfold fillContact
  split
  · split <;> rfl
  · rfl

theorem lookupCompany_mem (db : Db) (parsed : ParsedCompany) (c : Company)
    (h : lookupCompany db parsed = some c) : c ∈ db.companies := by
  unfold lookupCompany at h
  rcases hfw : (if optTruthy parsed.website then
      db.companies.find? (fun c => c.website == parsed.website)
    else none) with _ | c'
  · rw [hfw] at h
    exact List.mem_of_find?_eq_some h
  · rw [hfw] at h
    cases h
    by_cases hw : optTruthy parsed.website
    · rw [if_pos hw] at hfw
      exact List.mem_of_find?_eq_some hfw
    · rw [if_neg hw] at hfw
      cases hfw

theorem get_or_create_company_mem (db : Db) (parsed : ParsedCompany) :
    (get_or_create_company db parsed).company ∈
      (get_or_create_company db parsed).db.companies := by
  unfold get_or_create_company
  cases hl : lookupCompany db parsed with
  | some c =>
    dsimp only
    apply mem_updateCompanyList
    refine ⟨c, lookupCompany_mem db parsed c hl, ?_⟩
    rw [fillContact_id, fillCountry_id, fillWebsite_id]
  | none =>
    dsimp only
    apply mem_updateCompanyList
    refine ⟨newCompany db parsed, by simp, ?_⟩
    rw [fillContact_id, fillCountry_id, fillWebsite_id]

theorem upsert_product_link_companies (db : Db) (a b : Nat) (r : LinkRole) :
    (upsert_product_link db a b r).companies = db.companies := by
  unfold upsert_product_link; split <;> rfl

/-- C3: every merge of a deduped candidate — into a found record or a freshly
created one — sets the stored confidence to the max of the stored and
computed values, stamps the last-verified timestamp with the sources
retrieval time, sets the verification source to the final fetched URL and
the verification state to auto-verified, unconditionally (in particular also
when the prior state was human-verified), and the updated record is stored. -/
theorem C3_merge_refreshes_verification (ext : Externals) (db : Db) (ptId : Nat)
    (role : LinkRole) (source : SourceRecord) (final_url source_domain : String)
    (parsed : ParsedCompany) :
    (mergeCandidate ext db ptId role source final_url source_domain
        parsed).company.confidence_score =
      max (get_or_create_company db parsed).company.confidence_score
        (calculate_auto_confidence parsed source_domain) ∧
    (mergeCandidate ext db ptId role source final_url source_domain
        parsed).company.last_verified_at = some source.retrieved_at ∧
    (mergeCandidate ext db ptId role source final_url source_domain
        parsed).company.verification_source = some final_url ∧
    (mergeCandidate ext db ptId role source final_url source_domain
        parsed).company.verification_state = .AUTO_VERIFIED ∧
    (mergeCandidate ext db ptId role source final_url source_domain
        parsed).company ∈
      (mergeCandidate ext db ptId role source final_url source_domain
        parsed).db.companies := by
  unfold mergeCandidate
  dsimp only
  obtain ⟨hconf, hts, hsrc, hstate, hid⟩ := apply_enrichment_preserves ext.enrich
    { (get_or_create_company db parsed).company with
      confidence_score :=
        max (get_or_create_company db parsed).company.confidence_score
          (calculate_auto_confidence parsed source_domain),
      last_verified_at := some source.retrieved_at,
      verification_source := some final_url,
      verification_state := .AUTO_VERIFIED } parsed
  refine ⟨by rw [hconf], by rw [hts], by rw [hsrc], by rw [hstate], ?_⟩
  show _ ∈ (add_evidence _ _ _ _ _).companies
  have hev : ∀ (d : Db) (a b : Nat) (q : ParsedCompany) (cf : ℚ),
      (add_evidence d a b q cf).companies = d.companies := fun _ _ _ _ _ => rfl
  rw [hev]
  dsimp only
  rw [upsert_product_link_companies]
  apply mem_updateCompanyList
  exact ⟨(get_or_create_company db parsed).company,
    get_or_create_company_mem db parsed, by rw [hid]⟩

/-! ## C6: confidence and ranking scores stay in the unit interval -/

theorem roundQ_mono {x y : ℚ} (h : x ≤ y) : round x ≤ round y := by
  rw [round_eq, round_eq]
  exact Int.floor_mono (by linarith)

theorem roundTo_unit (n : Nat) (x : ℚ) (h0 : 0 ≤ x) (h1 : x ≤ 1) :
    0 ≤ roundTo n x ∧ roundTo n x ≤ 1 := by
  unfold roundTo
  constructor
  · apply div_nonneg _ (by positivity)
    have h2 : round (0 : ℚ) ≤ round (x * 10 ^ n) := roundQ_mono (by positivity)
    rw [round_zero] at h2
    exact_mod_cast h2
  · rw [div_le_one (by positivity)]
    have h2 : round (x * 10 ^ n) ≤ round ((10 : ℚ) ^ n) := by
      apply roundQ_mono
      calc x * 10 ^ n ≤ 1 * 10 ^ n := by
            apply mul_le_mul_of_nonneg_right h1 (by positivity)
        _ = 10 ^ n := one_mul _
    have h3 : round ((10 : ℚ) ^ n) = ((10 : ℤ) ^ n : ℤ) := by
      rw [show ((10 : ℚ) ^ n) = (((10 : ℤ) ^ n : ℤ) : ℚ) by push_cast; ring,
        round_intCast]
    rw [h3] at h2
    exact_mod_cast h2

theorem freshness_bounds (now : Int) (ts : Option Int) :
    0.2 ≤ (freshness_score now ts).1 ∧ (freshness_score now ts).1 ≤ 1 := by
  unfold freshness_score
  cases ts with
  | none => norm_num
  | some t =>
    dsimp only
    split_ifs <;> norm_num

theorem compliance_bounds (c : Company) :
    0.3 ≤ (compliance_coverage c).1 ∧ (compliance_coverage c).1 ≤ 1 := by
  unfold compliance_coverage
  dsimp only
  split
  · norm_num
  · dsimp only
    constructor
    · apply le_min (by norm_num)
      have h : (0 : ℚ) ≤ c.pharmacopeia_supported.length := by positivity
      linarith
    · exact min_le_left _ _

theorem cert_bounds (c : Company) (fl : List String) :
    0 ≤ (certification_match c fl).1 ∧ (certification_match c fl).1 ≤ 1 := by
  unfold certification_match
  dsimp only
  split
  · norm_num
  · split
    · norm_num
    · constructor
      · positivity
      · rcases Nat.eq_zero_or_pos ((fl.map pyLower).dedup).length with hz | hp
        · rw [hz]
          norm_num
        · rw [div_le_one (by exact_mod_cast hp)]
          exact_mod_cast List.length_filter_le _ _

/-- C6: every computed extraction confidence and every computed ranking score
lies in the closed interval `[0, 1]`. -/
theorem C6_scores_unit_interval :
    (∀ (c : ParsedCompany) (sd : String),
      0 ≤ calculate_auto_confidence c sd ∧ calculate_auto_confidence c sd ≤ 1) ∧
    (∀ (c : Company) (req : SearchFilters) (mrole : Option LinkRole) (now : Int),
      0 ≤ (score_company c req mrole now).1 ∧ (score_company c req mrole now).1 ≤ 1) := by
  constructor
  · intro c sd
    unfold calculate_auto_confidence
    apply roundTo_unit
    · apply le_min _ (by norm_num)
      split_ifs <;> norm_num
    · calc min _ (0.95 : ℚ) ≤ 0.95 := min_le_right _ _
        _ ≤ 1 := by norm_num
  · intro c req mrole now
    obtain ⟨hf1, hf2⟩ := freshness_bounds now c.last_verified_at
    obtain ⟨hc1, hc2⟩ := compliance_bounds c
    obtain ⟨he1, he2⟩ := cert_bounds c req.certifications
    have hcf1 : (0 : ℚ) ≤ max 0 (min c.confidence_score 1) := le_max_left _ _
    have hcf2 : max (0 : ℚ) (min c.confidence_score 1) ≤ 1 :=
      max_le (by norm_num) (min_le_right _ _)
    unfold score_company
    dsimp only
    have hrb : (0 : ℚ) ≤ (match req.role with
        | some r =>
          if mrole = some r then ((1.0 : ℚ), ["Role matched requested"])
          else ((0 : ℚ), ["Role differs from requested"])
        | none => ((0 : ℚ), ([] : List String))).1 ∧
        (match req.role with
        | some r =>
          if mrole = some r then ((1.0 : ℚ), ["Role matched requested"])
          else ((0 : ℚ), ["Role differs from requested"])
        | none => ((0 : ℚ), ([] : List String))).1 ≤ 1 := by
      cases req.role with
      | none => norm_num
      | some r =>
        dsimp only
        split_ifs <;> norm_num
    obtain ⟨hr1, hr2⟩ := hrb
    have hst : (0 : ℚ) ≤ (if c.status = .INACTIVE then (0.1 : ℚ)
        else if c.status = .ACTIVE then 1.0 else 0.5) ∧
        (if c.status = .INACTIVE then (0.1 : ℚ)
        else if c.status = .ACTIVE then 1.0 else 0.5) ≤ 1 := by
      split_ifs <;> norm_num
    obtain ⟨hs1, hs2⟩ := hst
    apply roundTo_unit
    · nlinarith
    · nlinarith

/-! ## C5: the ranking-score formula

The `claim...` definitions below restate the factor tables in the words of
the claim, to be compared with the embedding of scoring.py. -/

def claimFreshness (now : Int) (ts : Option Int) : ℚ :=
  match ts with
  | none => 0.2
  | some t =>
    if (now - t).fdiv 86400 ≤ 30 then 1.0
    else if (now - t).fdiv 86400 ≤ 90 then 0.8
    else if (now - t).fdiv 86400 ≤ 180 then 0.6
    else if (now - t).fdiv 86400 ≤ 365 then 0.4
    else 0.2

def claimCompliance (c : Company) : ℚ :=
  if c.pharmacopeia_supported = [] then 0.3
  else min 1 ((0.35 : ℚ) + (0.1 : ℚ) * c.pharmacopeia_supported.length)

def claimCertification (c : Company) (requested : List String) : ℚ :=
  if requested = [] then 0.7
  else
    let req := (requested.map pyLower).dedup
    let matched := req.filter (fun x => x ∈ (c.certifications.map pyLower).dedup)
    if matched = [] then 0 else (matched.length : ℚ) / (req.length : ℚ)

def claimRoleBonus (requested examined : Option LinkRole) : ℚ :=
  match requested with
  | some r => if examined = some r then 1.0 else 0
  | none => 0

def claimStatus : CompanyStatus → ℚ
  | .ACTIVE => 1.0
  | .LIMITED => 0.5
  | .INACTIVE => 0.1

theorem freshness_eq_claim (now : Int) (ts : Option Int) :
    (freshness_score now ts).1 = claimFreshness now ts := by
  unfold freshness_score claimFreshness
  cases ts with
  | none => rfl
  | some t =>
    dsimp only
    split_ifs <;> rfl

theorem compliance_eq_claim (c : Company) :
    (compliance_coverage c).1 = claimCompliance c := by
  unfold compliance_coverage claimCompliance
  dsimp only
  split <;> rfl

theorem certification_eq_claim (c : Company) (fl : List String) :
    (certification_match c fl).1 = claimCertification c fl := by
  unfold certification_match claimCertification
  dsimp only
  split
  · rfl
  · split <;> rfl

theorem roundTo4_shift (y : ℚ) : roundTo 4 (y + 0.192) = roundTo 4 y + 0.192 := by
  unfold roundTo
  have h : (y + 0.192) * 10 ^ 4 = y * 10 ^ 4 + ((1920 : ℤ) : ℚ) := by
    push_cast; ring
  rw [h, round_add_int]
  push_cast
  ring

/-- The ranking score as the weighted sum of the claim-side factor tables;
the hypothesis pins the stored confidence inside the unit interval, where the
clamp in scoring.py is the identity. -/
theorem score_company_formula (c : Company) (req : SearchFilters)
    (mrole : Option LinkRole) (now : Int)
    (hc0 : 0 ≤ c.confidence_score) (hc1 : c.confidence_score ≤ 1) :
    (score_company c req mrole now).1 =
      roundTo 4 ((0.32 : ℚ) * c.confidence_score +
        (0.24 : ℚ) * claimFreshness now c.last_verified_at +
        (0.2 : ℚ) * claimCompliance c +
        (0.14 : ℚ) * claimCertification c req.certifications +
        (0.06 : ℚ) * claimRoleBonus req.role mrole +
        (0.04 : ℚ) * claimStatus c.status) := by
  have hconf : max (0 : ℚ) (min c.confidence_score 1) = c.confidence_score := by
    rw [min_eq_left hc1, max_eq_right hc0]
  have hrole : ∀ (ro : Option LinkRole),
      (match ro with
        | some r =>
          if mrole = some r then ((1.0 : ℚ), ["Role matched requested"])
          else ((0 : ℚ), ["Role differs from requested"])
        | none => ((0 : ℚ), ([] : List String))).1 = claimRoleBonus ro mrole := by
    intro ro
    cases ro with
    | none => rfl
    | some r =>
      dsimp only [claimRoleBonus]
      split_ifs <;> rfl
  have hstatus : ∀ st : CompanyStatus,
      (if st = .INACTIVE then (0.1 : ℚ)
        else if st = .ACTIVE then 1.0 else 0.5) = claimStatus st := by
    intro st
    cases st <;> rfl
  unfold score_company
  dsimp only
  rw [freshness_eq_claim, compliance_eq_claim, certification_eq_claim, hconf,
    hrole, hstatus]

/-- C5: the ranking score is the 4-decimal rounding of
`0.32·confidence + 0.24·freshness + 0.20·complianceCoverage +
0.14·certificationMatch + 0.06·roleBonus + 0.04·statusScore` with the factor
tables of the claim, and consequently a vendor verified 10 days ago scores
strictly higher than an otherwise identical vendor verified 400 days ago. -/
theorem C5_ranking_formula (c : Company) (req : SearchFilters)
    (mrole : Option LinkRole) (now : Int)
    (hc0 : 0 ≤ c.confidence_score) (hc1 : c.confidence_score ≤ 1) :
    (score_company c req mrole now).1 =
      roundTo 4 ((0.32 : ℚ) * c.confidence_score +
        (0.24 : ℚ) * claimFreshness now c.last_verified_at +
        (0.2 : ℚ) * claimCompliance c +
        (0.14 : ℚ) * claimCertification c req.certifications +
        (0.06 : ℚ) * claimRoleBonus req.role mrole +
        (0.04 : ℚ) * claimStatus c.status) ∧
    (∀ t10 t400 : Int,
      (now - t10).fdiv 86400 = 10 → (now - t400).fdiv 86400 = 400 →
      (score_company { c with last_verified_at := some t400 } req mrole now).1 <
        (score_company { c with last_verified_at := some t10 } req mrole now).1) := by
  refine ⟨score_company_formula c req mrole now hc0 hc1, ?_⟩
  intro t10 t400 h10 h400
  rw [score_company_formula { c with last_verified_at := some t10 } req mrole now
      hc0 hc1,
    score_company_formula { c with last_verified_at := some t400 } req mrole now
      hc0 hc1]
  have hcf10 : claimFreshness now (some t10) = 1 := by
    unfold claimFreshness
    dsimp only
    rw [h10]
    norm_num
  have hcf400 : claimFreshness now (some t400) = 0.2 := by
    unfold claimFreshness
    dsimp only
    rw [h400]
    norm_num
  show roundTo 4 ((0.32 : ℚ) * c.confidence_score +
      (0.24 : ℚ) * claimFreshness now (some t400) +
      (0.2 : ℚ) * claimCompliance c +
      (0.14 : ℚ) * claimCertification c req.certifications +
      (0.06 : ℚ) * claimRoleBonus req.role mrole +
      (0.04 : ℚ) * claimStatus c.status) < _
  rw [hcf10, hcf400]
  have hcompU : ∀ x, claimCompliance { c with last_verified_at := x } =
      claimCompliance c := fun _ => rfl
  have hcertU : ∀ x, claimCertification { c with last_verified_at := x }
      req.certifications = claimCertification c req.certifications := fun _ => rfl
  simp only [hcompU, hcertU]
  have key : ∀ y : ℚ, roundTo 4 y < roundTo 4 (y + 0.192) := by
    intro y
    rw [roundTo4_shift]
    norm_num
  apply lt_of_lt_of_eq (key _)
  congr 1
  ring

def c5Company : Company :=
  ⟨1, "Acme Pharma", .BOTH, none, none, [], [], [], none, none, .ACTIVE,
   (0.5 : ℚ), .UNVERIFIED, none, none, []⟩

/-- C5 witness: the formula theorem applied to a concrete vendor pair whose
last-verified timestamps lie 10 and 400 days in the past. -/
theorem C5_ranking_formula_witness :
    (score_company { c5Company with last_verified_at := some (-400 * 86400) }
        ⟨[], none⟩ none 0).1 <
      (score_company { c5Company with last_verified_at := some (-10 * 86400) }
        ⟨[], none⟩ none 0).1 :=
  (C5_ranking_formula c5Company ⟨[], none⟩ none 0 (by norm_num [c5Company])
      (by norm_num [c5Company])).2 (-10 * 86400) (-400 * 86400)
    (by decide) (by decide)

/-! ## C2: the prose-noise discard in the heuristic strategy -/

def c2Text : String := String.intercalate " " ("france" :: List.replicate 60 "item")

def c2Tag : TagModel := ⟨"li", false, false, c2Text, none⟩

set_option maxRecDepth 40000 in
/-- C2 counterexample: a container of 61 words from which only a country
(France) was extracted — no website, email or phone — is discarded by the
code, although its name heuristic would have accepted it; the claim says a
candidate of more than 60 words with an extracted country is kept.  The
noise check at ingestion.py line 116 tests only `website or email or
phone`. -/
theorem C2_counterexample :
    collect_candidate_from_tag (fun _ => none) c2Tag = none ∧
    60 < (pyWords (clean_text c2Tag.rawText)).length ∧
    extract_country (clean_text c2Tag.rawText) = some "France" ∧
    (collect_name_stage (clean_text c2Tag.rawText) none
        (extract_first_email (clean_text c2Tag.rawText))
        (extract_first_phone (fun _ => none) (clean_text c2Tag.rawText))
        (extract_country (clean_text c2Tag.rawText))).isSome = true := by
  refine ⟨by decide, by decide, by decide, by decide⟩

/-- C2 (amended): for every candidate container that passes the header and
minimum-length checks and whose collapsed text exceeds 60 words, the
candidate is discarded as noise iff none of website, email, or phone were
extracted — an extracted country does not save it; when one of the three is
present the noise check passes and the outcome is that of the name
heuristic. -/
theorem C2_noise_check (phonelib : String → Option String) (tag : TagModel)
    (hdr : ¬ (tag.tagName = "tr" ∧ tag.hasTh ∧ ¬ tag.hasTd))
    (hlen : ¬ (clean_text tag.rawText).length < 5)
    (hwords : 60 < (pyWords (clean_text tag.rawText)).length) :
    (¬ optTruthy tag.website ∧
       ¬ optTruthy (extract_first_email (clean_text tag.rawText)) ∧
       ¬ optTruthy (extract_first_phone phonelib (clean_text tag.rawText)) →
      collect_candidate_from_tag phonelib tag = none) ∧
    ((optTruthy tag.website ∨
       optTruthy (extract_first_email (clean_text tag.rawText)) ∨
       optTruthy (extract_first_phone phonelib (clean_text tag.rawText))) →
      collect_candidate_from_tag phonelib tag =
        collect_name_stage (clean_text tag.rawText) tag.website
          (extract_first_email (clean_text tag.rawText))
          (extract_first_phone phonelib (clean_text tag.rawText))
          (extract_country (clean_text tag.rawText))) := by
  unfold collect_candidate_from_tag
  rw [if_neg hdr]
  dsimp only
  rw [if_neg hlen]
  constructor
  · rintro ⟨h1, h2, h3⟩
    rw [if_pos ⟨hwords, h1, h2, h3⟩]
  · intro h
    rw [if_neg ?_]
    rintro ⟨-, hw, he, hp⟩
    rcases h with h | h | h
    · exact hw h
    · exact he h
    · exact hp h

def c2wText : String := String.intercalate " " (List.replicate 61 "widget")

def c2wTag : TagModel := ⟨"li", false, false, c2wText, none⟩

set_option maxRecDepth 40000 in
/-- C2 witness: the amended noise-check theorem applied to a concrete
61-word container with no extracted website, email or phone. -/
theorem C2_noise_check_witness :
    collect_candidate_from_tag (fun _ => none) c2wTag = none :=
  (C2_noise_check (fun _ => none) c2wTag (by decide) (by decide) (by decide)).1
    ⟨by decide, by decide, by decide⟩

/-! ## C7: deduplication keeps the richest candidate per key -/

/-- Discard condition of the dedup loop, as a boolean. -/
def dedupDiscards (c : ParsedCompany) : Bool :=
  decide (dedupKey c = "" ∨ c.name.length < 3)

/-- Membership of a candidate in the key class `k` among the kept ones. -/
def validWithKey (k : String) (c : ParsedCompany) : Bool :=
  !dedupDiscards c && (dedupKey c == k)

/-- The per-key selection the dedup loop implements: keep the current
holder, replace it only by a strictly richer candidate. -/
def pickRich : Option ParsedCompany → List ParsedCompany → Option ParsedCompany
  | cur, [] => cur
  | none, x :: xs => pickRich (some x) xs
  | some c, x :: xs =>
    if fieldRichness c < fieldRichness x then pickRich (some x) xs
    else pickRich (some c) xs

theorem alistGet_nil (k : String) : alistGet [] k = none := rfl

theorem alistGet_cons (pk : String) (pv : ParsedCompany)
    (rest : List (String × ParsedCompany)) (k : String) :
    alistGet ((pk, pv) :: rest) k = if pk = k then some pv else alistGet rest k := by
  unfold alistGet
  rcases eq_or_ne pk k with h | h
  · subst h
    rw [List.find?_cons_of_pos _ (by simp)]
    simp
  · rw [List.find?_cons_of_neg _ (by simp [h])]
    rw [if_neg h]

theorem alistSet_nil (k : String) (v : ParsedCompany) :
    alistSet [] k v = [(k, v)] := rfl

theorem alistSet_cons (pk : String) (pv : ParsedCompany)
    (rest : List (String × ParsedCompany)) (k : String) (v : ParsedCompany) :
    alistSet ((pk, pv) :: rest) k v =
      if pk = k then (pk, v) :: rest else (pk, pv) :: alistSet rest k v := rfl

theorem alistGet_set (m : List (String × ParsedCompany)) (k' : String)
    (v : ParsedCompany) (k : String) :
    alistGet (alistSet m k' v) k = if k' = k then some v else alistGet m k := by
  induction m with
  | nil =>
    rw [alistSet_nil, alistGet_cons, alistGet_nil]
  | cons p ps ih =>
    rcases p with ⟨pk, pv⟩
    rw [alistSet_cons]
    by_cases h1 : pk = k'
    · rw [if_pos h1, alistGet_cons, alistGet_cons]
      subst h1
      by_cases h2 : pk = k <;> simp [h2]
    · rw [if_neg h1, alistGet_cons, alistGet_cons, ih]
      by_cases h2 : pk = k
      · subst h2
        rw [if_pos rfl, if_pos rfl, if_neg (fun h => h1 h.symm)]
      · rw [if_neg h2, if_neg h2]

theorem dedupStep_discard (st : List (String × ParsedCompany) × Nat)
    (x : ParsedCompany) (hd : dedupKey x = "" ∨ x.name.length < 3) :
    dedupStep st x = (st.1, st.2 + 1) := by
  unfold dedupStep
  rw [if_pos hd]

theorem dedupStep_keep_new (st : List (String × ParsedCompany) × Nat)
    (x : ParsedCompany) (hd : ¬ (dedupKey x = "" ∨ x.name.length < 3))
    (hget : alistGet st.1 (dedupKey x) = none) :
    dedupStep st x = (alistSet st.1 (dedupKey x) x, st.2) := by
  unfold dedupStep
  rw [if_neg hd, hget]

theorem dedupStep_keep_richer (st : List (String × ParsedCompany) × Nat)
    (x e : ParsedCompany) (hd : ¬ (dedupKey x = "" ∨ x.name.length < 3))
    (hget : alistGet st.1 (dedupKey x) = some e)
    (hrich : fieldRichness e < fieldRichness x) :
    dedupStep st x = (alistSet st.1 (dedupKey x) x, st.2) := by
  unfold dedupStep
  rw [if_neg hd, hget]
  dsimp only
  rw [if_pos hrich]

theorem dedupStep_keep_existing (st : List (String × ParsedCompany) × Nat)
    (x e : ParsedCompany) (hd : ¬ (dedupKey x = "" ∨ x.name.length < 3))
    (hget : alistGet st.1 (dedupKey x) = some e)
    (hrich : ¬ fieldRichness e < fieldRichness x) :
    dedupStep st x = (st.1, st.2) := by
  unfold dedupStep
  rw [if_neg hd, hget]
  dsimp only
  rw [if_neg hrich]

theorem dedup_fold_snd (l : List ParsedCompany) :
    ∀ st : List (String × ParsedCompany) × Nat,
    (l.foldl dedupStep st).2 = st.2 + (l.filter dedupDiscards).length := by
  induction l with
  | nil => intro st; simp
  | cons x xs ih =>
    intro st
    rw [List.foldl_cons, ih, List.filter_cons]
    by_cases hd : dedupKey x = "" ∨ x.name.length < 3
    · have hb : dedupDiscards x = true := by simp [dedupDiscards, hd]
      rw [dedupStep_discard st x hd, hb]
      simp [Nat.add_comm, Nat.add_assoc, Nat.add_left_comm]
    · have hb : dedupDiscards x = false := by simp [dedupDiscards, hd]
      rw [hb]
      simp only [Bool.false_eq_true, if_false]
      cases hget : alistGet st.1 (dedupKey x) with
      | none => rw [dedupStep_keep_new st x hd hget]
      | some e =>
        by_cases hrich : fieldRichness e < fieldRichness x
        · rw [dedupStep_keep_richer st x e hd hget hrich]
        · rw [dedupStep_keep_existing st x e hd hget hrich]

theorem dedup_fold_get (l : List ParsedCompany) :
    ∀ (st : List (String × ParsedCompany) × Nat) (k : String),
    alistGet (l.foldl dedupStep st).1 k =
      pickRich (alistGet st.1 k) (l.filter (validWithKey k)) := by
  induction l with
  | nil => intro st k; simp [pickRich]
  | cons x xs ih =>
    intro st k
    rw [List.foldl_cons, ih, List.filter_cons]
    by_cases hd : dedupKey x = "" ∨ x.name.length < 3
    · have hb : validWithKey k x = false := by
        simp [validWithKey, dedupDiscards, hd]
      rw [dedupStep_discard st x hd, hb]
      simp only [Bool.false_eq_true, if_false]
    · have hbd : dedupDiscards x = false := by simp [dedupDiscards, hd]
      by_cases hk : dedupKey x = k
      · have hb : validWithKey k x = true := by
          simp [validWithKey, hbd, hk]
        rw [hb]
        simp only [if_true]
        cases hget : alistGet st.1 (dedupKey x) with
        | none =>
          rw [dedupStep_keep_new st x hd hget]
          dsimp only
          rw [alistGet_set, if_pos hk, ← hk, hget]
          rfl
        | some e =>
          by_cases hrich : fieldRichness e < fieldRichness x
          · rw [dedupStep_keep_richer st x e hd hget hrich]
            dsimp only
            rw [alistGet_set, if_pos hk, ← hk, hget]
            simp [pickRich, hrich]
          · rw [dedupStep_keep_existing st x e hd hget hrich]
            dsimp only
            rw [← hk, hget]
            simp [pickRich, hrich]
      · have hb : validWithKey k x = false := by
          simp [validWithKey, hbd, hk]
        rw [hb]
        simp only [Bool.false_eq_true, if_false]
        cases hget : alistGet st.1 (dedupKey x) with
        | none =>
          rw [dedupStep_keep_new st x hd hget]
          dsimp only
          rw [alistGet_set, if_neg hk]
        | some e =>
          by_cases hrich : fieldRichness e < fieldRichness x
          · rw [dedupStep_keep_richer st x e hd hget hrich]
            dsimp only
            rw [alistGet_set, if_neg hk]
          · rw [dedupStep_keep_existing st x e hd hget hrich]

theorem pickRich_cases (xs : List ParsedCompany) :
    ∀ c₀ : ParsedCompany,
    (pickRich (some c₀) xs = some c₀ ∧ ∀ x ∈ xs, fieldRichness x ≤ fieldRichness c₀) ∨
    (∃ l₁ c l₂, xs = l₁ ++ c :: l₂ ∧ pickRich (some c₀) xs = some c ∧
      fieldRichness c₀ < fieldRichness c ∧
      (∀ x ∈ l₁, fieldRichness x < fieldRichness c) ∧
      (∀ x ∈ l₂, fieldRichness x ≤ fieldRichness c)) := by
  induction xs with
  | nil => intro c₀; left; exact ⟨rfl, by simp⟩
  | cons x xs ih =>
    intro c₀
    by_cases hx : fieldRichness c₀ < fieldRichness x
    · have hstep : pickRich (some c₀) (x :: xs) = pickRich (some x) xs := by
        simp [pickRich, hx]
      rcases ih x with ⟨heq, hall⟩ | ⟨l₁, c, l₂, hsplit, heq, hlt, h₁, h₂⟩
      · right
        exact ⟨[], x, xs, rfl, by rw [hstep, heq], hx, by simp, hall⟩
      · right
        refine ⟨x :: l₁, c, l₂, by rw [hsplit]; rfl, by rw [hstep, heq], ?_, ?_, h₂⟩
        · exact lt_trans hx hlt
        · intro y hy
          rcases List.mem_cons.mp hy with hy | hy
          · subst hy; exact hlt
          · exact h₁ y hy
    · have hstep : pickRich (some c₀) (x :: xs) = pickRich (some c₀) xs := by
        simp [pickRich, hx]
      rcases ih c₀ with ⟨heq, hall⟩ | ⟨l₁, c, l₂, hsplit, heq, hlt, h₁, h₂⟩
      · left
        refine ⟨by rw [hstep, heq], ?_⟩
        intro y hy
        rcases List.mem_cons.mp hy with hy | hy
        · subst hy; exact le_of_not_lt hx
        · exact hall y hy
      · right
        refine ⟨x :: l₁, c, l₂, by rw [hsplit]; rfl, by rw [hstep, heq], hlt, ?_, h₂⟩
        intro y hy
        rcases List.mem_cons.mp hy with hy | hy
        · subst hy; exact lt_of_le_of_lt (le_of_not_lt hx) hlt
        · exact h₁ y hy

theorem pickRich_none_spec (xs : List ParsedCompany) (c : ParsedCompany)
    (h : pickRich none xs = some c) :
    ∃ l₁ l₂, xs = l₁ ++ c :: l₂ ∧
      (∀ x ∈ l₁, fieldRichness x < fieldRichness c) ∧
      (∀ x ∈ l₂, fieldRichness x ≤ fieldRichness c) := by
  cases xs with
  | nil => cases h
  | cons x xs =>
    have hstep : pickRich none (x :: xs) = pickRich (some x) xs := rfl
    rw [hstep] at h
    rcases pickRich_cases xs x with ⟨heq, hall⟩ | ⟨l₁, c', l₂, hsplit, heq, hlt, h₁, h₂⟩
    · rw [heq] at h
      cases h
      exact ⟨[], xs, rfl, by simp, hall⟩
    · rw [heq] at h
      cases h
      refine ⟨x :: l₁, l₂, by rw [hsplit]; rfl, ?_, h₂⟩
      intro y hy
      rcases List.mem_cons.mp hy with hy | hy
      · subst hy
        exact hlt
      · exact h₁ y hy

/-- C7: the dedup phase keys candidates by lowercased trimmed website (else
name), counts as skipped every candidate with an empty key or a name under 3
characters, and for each key retains the first candidate of maximal richness
among {website, email, phone, country}; of two candidates sharing a website,
the strictly richer one is retained. -/
theorem C7_dedup (l : List ParsedCompany) (skipped0 : Nat) :
    (dedupCompanies l skipped0).skipped_rows =
      skipped0 + (l.filter dedupDiscards).length ∧
    (dedupCompanies l skipped0).companies =
      ((l.foldl dedupStep ([], skipped0)).1.map Prod.snd).filter
        (fun x => decide (3 ≤ x.name.length)) ∧
    (∀ (k : String) (c : ParsedCompany),
      alistGet (l.foldl dedupStep ([], skipped0)).1 k = some c →
      ∃ l₁ l₂, l.filter (validWithKey k) = l₁ ++ c :: l₂ ∧
        (∀ x ∈ l₁, fieldRichness x < fieldRichness c) ∧
        (∀ x ∈ l₂, fieldRichness x ≤ fieldRichness c)) ∧
    (∀ c1 c2 : ParsedCompany, dedupKey c1 = dedupKey c2 →
      dedupDiscards c1 = false → dedupDiscards c2 = false →
      fieldRichness c1 < fieldRichness c2 →
      (dedupCompanies [c1, c2] 0).companies = [c2]) := by
  refine ⟨dedup_fold_snd l ([], skipped0), rfl, ?_, ?_⟩
  · intro k c h
    rw [dedup_fold_get l ([], skipped0) k] at h
    exact pickRich_none_spec _ c h
  · intro c1 c2 hkey hv1 hv2 hrich
    have hp1 : ¬ (dedupKey c1 = "" ∨ c1.name.length < 3) :=
      of_decide_eq_false hv1
    have hp2 : ¬ (dedupKey c2 = "" ∨ c2.name.length < 3) :=
      of_decide_eq_false hv2
    have hname2 : decide (3 ≤ c2.name.length) = true := by
      rcases Nat.lt_or_ge c2.name.length 3 with hlt | hge
      · exact absurd (Or.inr hlt) hp2
      · simpa using hge
    have hstep1 : dedupStep ([], 0) c1 = ([(dedupKey c1, c1)], 0) := by
      unfold dedupStep; rw [if_neg hp1]; rfl
    have hget : alistGet [(dedupKey c1, c1)] (dedupKey c2) = some c1 := by
      rw [← hkey]
      simp [alistGet, List.find?]
    have hstep2 : dedupStep ([(dedupKey c1, c1)], 0) c2 = ([(dedupKey c1, c2)], 0) := by
      unfold dedupStep; rw [if_neg hp2]
      dsimp only
      rw [hget]
      dsimp only
      rw [if_pos hrich]
      have : alistSet [(dedupKey c1, c1)] (dedupKey c2) c2 = [(dedupKey c1, c2)] := by
        rw [← hkey]
        simp [alistSet]
      rw [this]
    show ((([c1, c2].foldl dedupStep ([], 0)).1.map Prod.snd).filter
        (fun x => decide (3 ≤ x.name.length))) = [c2]
    rw [List.foldl_cons, hstep1, List.foldl_cons, hstep2, List.foldl_nil]
    simp [hname2]

def c7Poor : ParsedCompany :=
  ⟨"Acme Pharma", some "https://acme.com", none, none, none, ""⟩

def c7Rich : ParsedCompany :=
  ⟨"Acme Pharma", some "https://acme.com", some "x@acme.com",
   some "+12125550186", none, ""⟩

/-- C7 witness: the dedup theorem applied to two concrete candidates sharing
a website, one with only a name and one with name, email and phone — the
richer one is retained. -/
theorem C7_dedup_witness :
    (dedupCompanies [c7Poor, c7Rich] 0).companies = [c7Rich] :=
  (C7_dedup [c7Poor, c7Rich] 0).2.2.2 c7Poor c7Rich (by decide) (by decide)
    (by decide) (by decide)

/-! ## C9: the normalizer scoring and selection -/

theorem charSimilarity_concrete (sa sb : String) (m n : Nat)
    (hm : matchTotal sa.data sb.data = m)
    (hn : sa.data.length + sb.data.length = n) (hnz : n ≠ 0) :
    charSimilarity sa sb = (2 * m : ℚ) / (n : ℚ) := by
  unfold charSimilarity
  rw [if_neg (by rw [hn]; exact hnz), hm, hn]

theorem charSimilarity_nonneg (sa sb : String) : 0 ≤ charSimilarity sa sb := by
  unfold charSimilarity
  dsimp only
  split
  · norm_num
  · positivity

theorem tokenOverlap_concrete (qt : List String) (cand : String) (a b : Nat)
    (ha : (qt.filter (fun t => decide (t ∈ (tokenize cand).dedup))).length = a)
    (hb : max qt.length 1 = b) :
    tokenOverlap qt cand = (a : ℚ) / (b : ℚ) := by
  unfold tokenOverlap
  dsimp only
  rw [ha, hb]

theorem tokenOverlap_self (s : String) (h : tokenize s ≠ []) :
    tokenOverlap ((tokenize s).dedup) s = 1 := by
  unfold tokenOverlap
  dsimp only
  have hsub : ((tokenize s).dedup).filter
      (fun t => decide (t ∈ (tokenize s).dedup)) = (tokenize s).dedup :=
    List.filter_eq_self.mpr (fun a ha => decide_eq_true ha)
  rw [hsub]
  have hne : (tokenize s).dedup ≠ [] := fun hz => h ((List.dedup_eq_nil _).mp hz)
  have hlen : 1 ≤ (tokenize s).dedup.length :=
    Nat.one_le_iff_ne_zero.mpr (fun hz => hne (List.length_eq_zero.mp hz))
  rw [Nat.max_eq_left hlen]
  exact div_self (by exact_mod_cast Nat.one_le_iff_ne_zero.mp hlen)

theorem foldl_max_init (l : List ℚ) : ∀ a : ℚ, a ≤ l.foldl max a := by
  induction l with
  | nil => intro a; exact le_refl a
  | cons x xs ih =>
    intro a
    exact le_trans (le_max_left a x) (ih (max a x))

theorem foldl_max_mem (l : List ℚ) : ∀ (a x : ℚ), x ∈ l → x ≤ l.foldl max a := by
  induction l with
  | nil => intro a x hx; simp at hx
  | cons y ys ih =>
    intro a x hx
    rcases List.mem_cons.mp hx with hx | hx
    · subst hx
      exact le_trans (le_max_right a x) (foldl_max_init ys (max a x))
    · exact ih (max a y) x hx

theorem candidateScore_name_le (q : String) (qt : List String) (item : ProductTypeM) :
    candidateScore q qt item.name ≤ itemScore q qt item := by
  unfold itemScore
  apply foldl_max_mem
  exact List.mem_map_of_mem _ (by simp)

def c9A : ProductTypeM := ⟨1, "s1", "x", none, ["ab"], []⟩

def c9B : ProductTypeM := ⟨2, "s2", "ab", none, [], []⟩

theorem c9_score_A : itemScore "ab" ["ab"] c9A = 1 := by
  have cvx : candidateScore "ab" ["ab"] "x" = 0 := by
    show (0.55 : ℚ) * charSimilarity "ab" "x" + (0.45 : ℚ) * tokenOverlap ["ab"] "x" = 0
    rw [charSimilarity_concrete "ab" "x" 0 3 (by decide) (by decide) (by norm_num),
      tokenOverlap_concrete ["ab"] "x" 0 1 (by decide) (by decide)]
    norm_num
  have cvs1 : candidateScore "ab" ["ab"] "s1" = 0 := by
    show (0.55 : ℚ) * charSimilarity "ab" "s1" + (0.45 : ℚ) * tokenOverlap ["ab"] "s1" = 0
    rw [charSimilarity_concrete "ab" "s1" 0 4 (by decide) (by decide) (by norm_num),
      tokenOverlap_concrete ["ab"] "s1" 0 1 (by decide) (by decide)]
    norm_num
  have cvab : candidateScore "ab" ["ab"] "ab" = 1 := by
    show (0.55 : ℚ) * charSimilarity "ab" "ab" + (0.45 : ℚ) * tokenOverlap ["ab"] "ab" = 1
    rw [charSimilarity_concrete "ab" "ab" 2 4 (by decide) (by decide) (by norm_num),
      tokenOverlap_concrete ["ab"] "ab" 1 1 (by decide) (by decide)]
    norm_num
  show List.foldl max 0 ([candidateScore "ab" ["ab"] "x",
    candidateScore "ab" ["ab"] "s1", candidateScore "ab" ["ab"] "ab"]) = 1
  rw [cvx, cvs1, cvab]
  show max (max (max 0 0) 0) 1 = 1
  simp

theorem c9_score_B : itemScore "ab" ["ab"] c9B = 1 := by
  have cvab : candidateScore "ab" ["ab"] "ab" = 1 := by
    show (0.55 : ℚ) * charSimilarity "ab" "ab" + (0.45 : ℚ) * tokenOverlap ["ab"] "ab" = 1
    rw [charSimilarity_concrete "ab" "ab" 2 4 (by decide) (by decide) (by norm_num),
      tokenOverlap_concrete ["ab"] "ab" 1 1 (by decide) (by decide)]
    norm_num
  have cvs2 : candidateScore "ab" ["ab"] "s2" = 0 := by
    show (0.55 : ℚ) * charSimilarity "ab" "s2" + (0.45 : ℚ) * tokenOverlap ["ab"] "s2" = 0
    rw [charSimilarity_concrete "ab" "s2" 0 4 (by decide) (by decide) (by norm_num),
      tokenOverlap_concrete ["ab"] "s2" 0 1 (by decide) (by decide)]
    norm_num
  show List.foldl max 0 ([candidateScore "ab" ["ab"] "ab",
    candidateScore "ab" ["ab"] "s2"]) = 1
  rw [cvab, cvs2]
  show max (max 0 1) 0 = 1
  simp

/-- C9 counterexample: in the catalog `[c9A, c9B]` where the earlier entry
`c9A` carries the later entry's exact name "ab" as a keyword, querying the
exact stored name of `c9B` returns `c9A` (both score 1.0 and the loop keeps
the first strict maximum), not `c9B` as the claim requires. -/
theorem C9_counterexample :
    normalize_product_type_query [c9A, c9B] "ab" = ⟨some c9A, "x"⟩ ∧
    c9B.name = "ab" ∧ c9A ≠ c9B := by
  refine ⟨?_, rfl, by decide⟩
  have hpb : pickBest (itemScore "ab" ["ab"]) [c9A, c9B] (none, 0) =
      (some c9A, 1) := by
    have h1 : pickBest (itemScore "ab" ["ab"]) [c9A, c9B] (none, 0) =
        if (0 : ℚ) < itemScore "ab" ["ab"] c9A then
          pickBest (itemScore "ab" ["ab"]) [c9B]
            (some c9A, itemScore "ab" ["ab"] c9A)
        else pickBest (itemScore "ab" ["ab"]) [c9B] (none, 0) := rfl
    rw [h1, c9_score_A, if_pos (by norm_num : (0 : ℚ) < 1)]
    have h2 : pickBest (itemScore "ab" ["ab"]) [c9B] (some c9A, 1) =
        if (1 : ℚ) < itemScore "ab" ["ab"] c9B then
          pickBest (itemScore "ab" ["ab"]) []
            (some c9B, itemScore "ab" ["ab"] c9B)
        else pickBest (itemScore "ab" ["ab"]) [] (some c9A, 1) := rfl
    rw [h2, c9_score_B, if_neg (by norm_num : ¬ (1 : ℚ) < 1)]
    rfl
  show (match (pickBest (itemScore "ab" ["ab"]) [c9A, c9B] (none, 0)).1 with
    | some item =>
      if (0.45 : ℚ) ≤ (pickBest (itemScore "ab" ["ab"]) [c9A, c9B] (none, 0)).2
      then (⟨some item, item.name⟩ : NormalizationResult)
      else ⟨none, "ab"⟩
    | none => ⟨none, "ab"⟩) = ⟨some c9A, "x"⟩
  rw [hpb]
  show (if (0.45 : ℚ) ≤ (1 : ℚ) then (⟨some c9A, "x"⟩ : NormalizationResult)
    else ⟨none, "ab"⟩) = ⟨some c9A, "x"⟩
  rw [if_pos (by norm_num)]

theorem pickBest_cases (f : ProductTypeM → ℚ) (xs : List ProductTypeM) :
    ∀ (b : Option ProductTypeM) (s : ℚ),
    (pickBest f xs (b, s) = (b, s) ∧ ∀ x ∈ xs, f x ≤ s) ∨
    (∃ l₁ c l₂, xs = l₁ ++ c :: l₂ ∧ pickBest f xs (b, s) = (some c, f c) ∧
      s < f c ∧ (∀ x ∈ l₁, f x < f c) ∧ (∀ x ∈ l₂, f x ≤ f c)) := by
  induction xs with
  | nil => intro b s; left; exact ⟨rfl, by simp⟩
  | cons x xs ih =>
    intro b s
    by_cases hx : s < f x
    · have hstep : pickBest f (x :: xs) (b, s) = pickBest f xs (some x, f x) := by
        simp [pickBest, hx]
      rcases ih (some x) (f x) with ⟨heq, hall⟩ | ⟨l₁, c, l₂, hsplit, heq, hlt, h₁, h₂⟩
      · right
        exact ⟨[], x, xs, rfl, by rw [hstep, heq], hx, by simp, hall⟩
      · right
        refine ⟨x :: l₁, c, l₂, by rw [hsplit]; rfl, by rw [hstep, heq],
          lt_trans hx hlt, ?_, h₂⟩
        intro y hy
        rcases List.mem_cons.mp hy with hy | hy
        · subst hy; exact hlt
        · exact h₁ y hy
    · have hstep : pickBest f (x :: xs) (b, s) = pickBest f xs (b, s) := by
        simp [pickBest, hx]
      rcases ih b s with ⟨heq, hall⟩ | ⟨l₁, c, l₂, hsplit, heq, hlt, h₁, h₂⟩
      · left
        refine ⟨by rw [hstep, heq], ?_⟩
        intro y hy
        rcases List.mem_cons.mp hy with hy | hy
        · subst hy; exact le_of_not_lt hx
        · exact hall y hy
      · right
        refine ⟨x :: l₁, c, l₂, by rw [hsplit]; rfl, by rw [hstep, heq], hlt,
          ?_, h₂⟩
        intro y hy
        rcases List.mem_cons.mp hy with hy | hy
        · subst hy; exact lt_of_le_of_lt (le_of_not_lt hx) hlt
        · exact h₁ y hy

theorem pickBest_reach (f : ProductTypeM → ℚ) (item : ProductTypeM)
    (l₂ : List ProductTypeM) :
    ∀ (l₁ : List ProductTypeM) (b : Option ProductTypeM) (s : ℚ), s < f item →
    (∀ x ∈ l₁, f x < f item) →
    pickBest f (l₁ ++ item :: l₂) (b, s) = pickBest f l₂ (some item, f item) := by
  intro l₁
  induction l₁ with
  | nil =>
    intro b s hs _
    simp [pickBest, hs]
  | cons x l₁ ih =>
    intro b s hs hall
    by_cases hx : s < f x
    · have hstep : pickBest f ((x :: l₁) ++ item :: l₂) (b, s) =
          pickBest f (l₁ ++ item :: l₂) (some x, f x) := by
        simp [pickBest, hx]
      rw [hstep]
      exact ih (some x) (f x) (hall x (by simp)) (fun y hy => hall y (by simp [hy]))
    · have hstep : pickBest f ((x :: l₁) ++ item :: l₂) (b, s) =
          pickBest f (l₁ ++ item :: l₂) (b, s) := by
        simp [pickBest, hx]
      rw [hstep]
      exact ih b s hs (fun y hy => hall y (by simp [hy]))

theorem pickBest_hold (f : ProductTypeM → ℚ) (item : ProductTypeM) :
    ∀ (l₂ : List ProductTypeM), (∀ x ∈ l₂, f x ≤ f item) →
    pickBest f l₂ (some item, f item) = (some item, f item) := by
  intro l₂
  induction l₂ with
  | nil => intro _; rfl
  | cons x xs ih =>
    intro hall
    have hx : ¬ f item < f x := not_lt.mpr (hall x (by simp))
    have hstep : pickBest f (x :: xs) (some item, f item) =
        pickBest f xs (some item, f item) := by
      simp [pickBest, hx]
    rw [hstep]
    exact ih (fun y hy => hall y (by simp [hy]))

/-- C9 (amended): for every query with a non-blank trim and every catalog,
the normalizer either reports no match with the trimmed query, or returns a
ProductType whose score — the max over its name, slug and keywords of
`0.55·characterSimilarity + 0.45·tokenOverlap` — is at least 0.45, exceeds
every earlier entry strictly and no later entry falls above it; querying the
exact stored name of a ProductType returns that ProductType provided no
earlier catalog entry attains an equal-or-higher score and no later entry a
higher one; and a query scoring 0 against every catalog entry returns no
match with the trimmed query. -/
theorem C9_normalizer (catalog : List ProductTypeM) (query : String)
    (hq : ¬ pyStrip query = "") :
    ((normalize_product_type_query catalog query =
        ⟨none, pyStrip query⟩) ∨
      (∃ l₁ item l₂, catalog = l₁ ++ item :: l₂ ∧
        normalize_product_type_query catalog query = ⟨some item, item.name⟩ ∧
        (0.45 : ℚ) ≤ itemScore (pyStrip query)
          ((tokenize (pyStrip query)).dedup) item ∧
        (∀ x ∈ l₁, itemScore (pyStrip query) ((tokenize (pyStrip query)).dedup) x <
          itemScore (pyStrip query) ((tokenize (pyStrip query)).dedup) item) ∧
        (∀ x ∈ catalog, itemScore (pyStrip query) ((tokenize (pyStrip query)).dedup) x ≤
          itemScore (pyStrip query) ((tokenize (pyStrip query)).dedup) item))) ∧
    (∀ (l₁ : List ProductTypeM) (item : ProductTypeM) (l₂ : List ProductTypeM),
      catalog = l₁ ++ item :: l₂ →
      pyStrip query = item.name → tokenize item.name ≠ [] →
      (∀ x ∈ l₁, itemScore (pyStrip query) ((tokenize (pyStrip query)).dedup) x <
        itemScore (pyStrip query) ((tokenize (pyStrip query)).dedup) item) →
      (∀ x ∈ l₂, itemScore (pyStrip query) ((tokenize (pyStrip query)).dedup) x ≤
        itemScore (pyStrip query) ((tokenize (pyStrip query)).dedup) item) →
      normalize_product_type_query catalog query = ⟨some item, item.name⟩) ∧
    ((∀ x ∈ catalog,
        itemScore (pyStrip query) ((tokenize (pyStrip query)).dedup) x = 0) →
      normalize_product_type_query catalog query = ⟨none, pyStrip query⟩) := by
  refine ⟨?_, ?_, ?_⟩
  · by_cases hcat : catalog = []
    · left
      unfold normalize_product_type_query
      rw [if_neg hq, if_pos hcat]
    · rcases hpb : pickBest (itemScore (pyStrip query)
          ((tokenize (pyStrip query)).dedup)) catalog (none, 0) with ⟨b, s⟩
      cases b with
      | none =>
        left
        unfold normalize_product_type_query
        rw [if_neg hq, if_neg hcat]
        dsimp only
        rw [hpb]
      | some item =>
        rcases pickBest_cases (itemScore (pyStrip query)
            ((tokenize (pyStrip query)).dedup)) catalog none 0 with
          ⟨heq, _⟩ | ⟨l₁, c, l₂, hsplit, heq, hlt, h₁, h₂⟩
        · rw [hpb] at heq
          cases heq
        · rw [hpb] at heq
          have hitem : item = c := by
            have := congrArg Prod.fst heq
            exact Option.some.inj this
          have hs : s = itemScore (pyStrip query)
              ((tokenize (pyStrip query)).dedup) c := congrArg Prod.snd heq
          subst hitem
          by_cases h45 : (0.45 : ℚ) ≤ s
          · right
            refine ⟨l₁, item, l₂, hsplit, ?_, by rw [← hs]; exact h45, h₁, ?_⟩
            · unfold normalize_product_type_query
              rw [if_neg hq, if_neg hcat]
              dsimp only
              rw [hpb]
              dsimp only
              rw [if_pos h45]
            · intro x hx
              rw [hsplit] at hx
              rcases List.mem_append.mp hx with hx | hx
              · exact le_of_lt (h₁ x hx)
              · rcases List.mem_cons.mp hx with hx | hx
                · subst hx; exact le_refl _
                · exact h₂ x hx
          · left
            unfold normalize_product_type_query
            rw [if_neg hq, if_neg hcat]
            dsimp only
            rw [hpb]
            dsimp only
            rw [if_neg h45]
  · intro l₁ item l₂ hsplit hname htok h₁ h₂
    have hover : tokenOverlap ((tokenize (pyStrip query)).dedup) item.name = 1 := by
      rw [hname]
      exact tokenOverlap_self item.name htok
    have hcand : (0.45 : ℚ) ≤ candidateScore (pyStrip query)
        ((tokenize (pyStrip query)).dedup) item.name := by
      unfold candidateScore
      rw [hover]
      have hcs := charSimilarity_nonneg (pyLower (pyStrip query)) (pyLower item.name)
      linarith
    have hscore : (0.45 : ℚ) ≤ itemScore (pyStrip query)
        ((tokenize (pyStrip query)).dedup) item :=
      le_trans hcand (candidateScore_name_le _ _ _)
    have hpos : (0 : ℚ) < itemScore (pyStrip query)
        ((tokenize (pyStrip query)).dedup) item :=
      lt_of_lt_of_le (by norm_num) hscore
    have hcat : ¬ catalog = [] := by
      rw [hsplit]
      exact fun hz => absurd (List.append_eq_nil.mp hz).2 (List.cons_ne_nil _ _)
    have hpb : pickBest (itemScore (pyStrip query)
        ((tokenize (pyStrip query)).dedup)) catalog (none, 0) =
        (some item, itemScore (pyStrip query)
          ((tokenize (pyStrip query)).dedup) item) := by
      rw [hsplit, pickBest_reach _ item l₂ l₁ none 0 hpos h₁]
      exact pickBest_hold _ item l₂ h₂
    unfold normalize_product_type_query
    rw [if_neg hq, if_neg hcat]
    dsimp only
    rw [hpb]
    dsimp only
    rw [if_pos hscore]
  · intro hall
    by_cases hcat : catalog = []
    · unfold normalize_product_type_query
      rw [if_neg hq, if_pos hcat]
    · have hpb : pickBest (itemScore (pyStrip query)
          ((tokenize (pyStrip query)).dedup)) catalog (none, 0) = (none, 0) := by
        rcases pickBest_cases (itemScore (pyStrip query)
            ((tokenize (pyStrip query)).dedup)) catalog none 0 with
          ⟨heq, _⟩ | ⟨l₁, c, l₂, hsplit, heq, hlt, _, _⟩
        · exact heq
        · exfalso
          have hz : itemScore (pyStrip query)
              ((tokenize (pyStrip query)).dedup) c = 0 :=
            hall c (by rw [hsplit]; simp)
          rw [hz] at hlt
          exact absurd hlt (by norm_num)
      unfold normalize_product_type_query
      rw [if_neg hq, if_neg hcat]
      dsimp only
      rw [hpb]

/-- C9 witness: the amended normalizer theorem applied to the one-entry
catalog `[c9B]` and the exact stored name query — the ProductType itself is
returned with its name as normalized query. -/
theorem C9_normalizer_witness :
    normalize_product_type_query [c9B] "ab" = ⟨some c9B, "ab"⟩ :=
  (C9_normalizer [c9B] "ab" (by decide)).2.1 [] c9B [] rfl (by decide)
    (by decide) (by simp) (by simp)

/-! ## C10: fallback product-type creation for unmatched queries -/

/-- Slug construction as the claim words it: lowercase, replace
non-alphanumeric runs with underscores, truncate to 120 characters, default
when empty — without the strip of leading and trailing underscores that the
code performs. -/
def slugifyClaim (value : String) : String :=
  let slug := pyTake (String.mk (slugCore false (pyLower value).data)) 120
  if slug = "" then "custom_product_type" else slug

def c10Db : Db := ⟨[], [], [], [], [], 1, 1, 1⟩

/-- C10 counterexample: for the query "x!" the code creates the slug "x"
(`_slugify` strips the leading and trailing underscores), while the slug
construction the claim describes yields "x_". -/
theorem C10_counterexample :
    (upsert_product_type c10Db "x!").2.slug = "x" ∧
    slugifyClaim "x!" = "x_" ∧ ("x" : String) ≠ "x_" := by
  refine ⟨rfl, by decide, by decide⟩

theorem upsert_product_type_links (d : Db) (q : String) :
    (upsert_product_type d q).1.links = d.links := by
  unfold upsert_product_type
  dsimp only
  cases (normalize_product_type_query d.product_types q).product_type with
  | some pt => rfl
  | none =>
    dsimp only
    cases d.product_types.find? (fun pt => pt.slug == slugify q) with
    | some existing => rfl
    | none => rfl

theorem upsert_product_type_snd_eq (dbA dbB : Db) (q : String)
    (h1 : dbA.product_types = dbB.product_types)
    (h2 : dbA.nextProductTypeId = dbB.nextProductTypeId) :
    (upsert_product_type dbA q).2 = (upsert_product_type dbB q).2 := by
  unfold upsert_product_type
  dsimp only
  rw [h1, h2]
  cases (normalize_product_type_query dbB.product_types q).product_type with
  | some pt => rfl
  | none =>
    dsimp only
    cases dbB.product_types.find? (fun pt => pt.slug == slugify q) with
    | some existing => rfl
    | none => rfl

theorem get_or_create_company_links (d : Db) (parsed : ParsedCompany) :
    (get_or_create_company d parsed).db.links = d.links := by
  unfold get_or_create_company
  cases lookupCompany d parsed with
  | some c => rfl
  | none => rfl

theorem upsert_product_link_mem (d : Db) (ptId cid : Nat) (role : LinkRole)
    (l : CompanyProductType) :
    l ∈ (upsert_product_link d ptId cid role).links →
    l ∈ d.links ∨ l.product_type_id = ptId := by
  unfold upsert_product_link
  cases d.links.find?
      (fun l => l.product_type_id == ptId && l.company_id == cid) with
  | some x =>
    intro hl
    exact Or.inl hl
  | none =>
    intro hl
    rcases List.mem_append.mp hl with h | h
    · exact Or.inl h
    · rcases List.mem_cons.mp h with h | h
      · subst h; exact Or.inr rfl
      · simp at h

theorem mergeCandidate_links_mem (ext : Externals) (d : Db) (ptId : Nat)
    (role : LinkRole) (source : SourceRecord) (fu sd : String)
    (parsed : ParsedCompany) (l : CompanyProductType) :
    l ∈ (mergeCandidate ext d ptId role source fu sd parsed).db.links →
    l ∈ d.links ∨ l.product_type_id = ptId := by
  unfold mergeCandidate
  dsimp only
  intro hl
  have hl2 : l ∈ (upsert_product_link (get_or_create_company d parsed).db ptId
      (get_or_create_company d parsed).company.id role).links := hl
  rcases upsert_product_link_mem _ _ _ _ _ hl2 with h | h
  · rw [get_or_create_company_links] at h
    exact Or.inl h
  · exact Or.inr h

theorem mergeCandidate_links_company (ext : Externals) (d : Db) (ptId : Nat)
    (role : LinkRole) (source : SourceRecord) (fu sd : String)
    (parsed : ParsedCompany) :
    ∃ l ∈ (mergeCandidate ext d ptId role source fu sd parsed).db.links,
      l.product_type_id = ptId ∧
      l.company_id =
        (mergeCandidate ext d ptId role source fu sd parsed).company.id := by
  have hid : (mergeCandidate ext d ptId role source fu sd parsed).company.id =
      (get_or_create_company d parsed).company.id := by
    unfold mergeCandidate
    dsimp only
    rw [(apply_enrichment_preserves _ _ _).2.2.2.2]
  rw [hid]
  show ∃ l ∈ (upsert_product_link (get_or_create_company d parsed).db ptId
      (get_or_create_company d parsed).company.id role).links, _
  unfold upsert_product_link
  cases hf : (get_or_create_company d parsed).db.links.find?
      (fun l => l.product_type_id == ptId &&
        l.company_id == (get_or_create_company d parsed).company.id) with
  | some x =>
    have hx := List.find?_some hf
    have hmem := List.mem_of_find?_eq_some hf
    simp only [Bool.and_eq_true, beq_iff_eq] at hx
    exact ⟨x, hmem, hx.1, hx.2⟩
  | none =>
    refine ⟨⟨ptId, (get_or_create_company d parsed).company.id, role,
      "Added by ingestion pipeline"⟩, ?_, rfl, rfl⟩
    exact List.mem_append.mpr (Or.inr (by simp))

theorem ingest_fold_links (ext : Externals) (ptId : Nat) (role : LinkRole)
    (source : SourceRecord) (fu sd : String) :
    ∀ (cs : List ParsedCompany) (st : Db × Nat × Nat) (l : CompanyProductType),
    l ∈ (cs.foldl (fun (st : Db × Nat × Nat) parsed =>
        let out := mergeCandidate ext st.1 ptId role source fu sd parsed
        (out.db, st.2.1 + (if out.created then 1 else 0),
         st.2.2 + (if ¬ out.created ∧ out.changed then 1 else 0))) st).1.links →
    l ∈ st.1.links ∨ l.product_type_id = ptId := by
  intro cs
  induction cs with
  | nil => intro st l hl; exact Or.inl hl
  | cons x xs ih =>
    intro st l hl
    rw [List.foldl_cons] at hl
    rcases ih _ l hl with h | h
    · rcases mergeCandidate_links_mem ext st.1 ptId role source fu sd x l h with
        h2 | h2
      · exact Or.inl h2
      · exact Or.inr h2
    · exact Or.inr h

/-- C10 (amended): when the product-type query matches no catalog entry at
the normalizer threshold, the pipeline resolves a ProductType whose slug is
the lowercased query with non-alphanumeric runs replaced by underscores and
leading/trailing underscores stripped (truncated to 120 characters,
defaulting to "custom_product_type" when empty), reusing an existing row
with that slug when present and otherwise creating one whose name is the
trimmed title-cased query and whose keywords contain the trimmed lowercased
query; the non-dry-run ingestion completes with a source id and links the
merged vendors to that resolved product type. -/
theorem C10_custom_product_type (db : Db) (query : String)
    (hn : (normalize_product_type_query db.product_types query).product_type
      = none) :
    (upsert_product_type db query).2.slug = slugify query ∧
    (db.product_types.find? (fun pt => pt.slug == slugify query) = none →
      (upsert_product_type db query).2.name = pyTitle (pyStrip query) ∧
      pyLower (pyStrip query) ∈ (upsert_product_type db query).2.keywords ∧
      (upsert_product_type db query).1.product_types =
        db.product_types ++ [(upsert_product_type db query).2]) ∧
    (∀ pt, db.product_types.find? (fun pt => pt.slug == slugify query) = some pt →
      upsert_product_type db query = (db, pt)) ∧
    (∀ (ext : Externals) (now : Int) (r : ScrapeResult) (p : IngestPayload)
      (l : CompanyProductType),
      l ∈ (ingest_from_url ext db now (.ok r)
        { p with product_type_query := query, dry_run := false }).db.links →
      l ∈ db.links ∨
      l.product_type_id = (upsert_product_type db query).2.id) ∧
    (∀ (ext : Externals) (now : Int) (r : ScrapeResult) (p : IngestPayload),
      (ingest_from_url ext db now (.ok r)
        { p with product_type_query := query, dry_run := false }).response.source_id
        = some db.nextSourceId) := by
  have hmain : ∀ d2 : Db, d2.product_types = db.product_types →
      d2.nextProductTypeId = db.nextProductTypeId →
      (upsert_product_type d2 query).2 = (upsert_product_type db query).2 :=
    fun d2 h1 h2 => upsert_product_type_snd_eq d2 db query h1 h2
  refine ⟨?_, ?_, ?_, ?_, ?_⟩
  · unfold upsert_product_type
    dsimp only
    rw [hn]
    dsimp only
    cases hf : db.product_types.find? (fun pt => pt.slug == slugify query) with
    | some existing =>
      have := List.find?_some hf
      simp only [beq_iff_eq] at this
      exact this
    | none => rfl
  · intro hf
    unfold upsert_product_type
    dsimp only
    rw [hn]
    dsimp only
    rw [hf]
    exact ⟨rfl, by simp, rfl⟩
  · intro pt hf
    unfold upsert_product_type
    dsimp only
    rw [hn]
    dsimp only
    rw [hf]
  · intro ext now r p l hl
    rcases ingest_fold_links ext _ p.role _ r.final_url _ _ _ l hl with h | h
    · rw [upsert_product_type_links] at h
      exact Or.inl h
    · right
      rw [h]
      have := hmain { db with
        sources := db.sources ++ [⟨db.nextSourceId, p.source_name, r.final_url,
          now, "1.0", r.status_code, r.content_hash⟩],
        nextSourceId := db.nextSourceId + 1 } rfl rfl
      rw [this]
  · intro ext now r p
    rfl

/-- C10 witness: the amended theorem applied to an empty store and the query
"x!" — a fresh ProductType with slug "x", title-cased name and the query as
keyword is created. -/
theorem C10_custom_product_type_witness :
    (upsert_product_type c10Db "x!").2.slug = slugify "x!" ∧
    (upsert_product_type c10Db "x!").2.name = pyTitle (pyStrip "x!") ∧
    pyLower (pyStrip "x!") ∈ (upsert_product_type c10Db "x!").2.keywords := by
  have h := C10_custom_product_type c10Db "x!" (by decide)
  exact ⟨h.1, (h.2.1 (by decide)).1, (h.2.1 (by decide)).2.1⟩

end ManuID
